import Mathlib

/-!
Shallow embedding of the retree mutation-tracking engine
(`@retreejs/core`), translated from the TypeScript sources:

* `internals/proxy.ts` — `buildProxy` (get/set/deleteProperty traps),
  `reparentProxy`, `handleNodeRemoved`, `getUnproxiedNode`, `getBaseProxy`;
* `internals/reproxy.ts` — `updateReproxyNode`, `getReproxyNode`;
* `internals/transactions.ts` — `Transactions` (skipEmit / skipReproxy /
  runningTransaction flags, `upsertPendingTransaction`,
  `runPendingTransactions`);
* `Retree.ts` — `Retree.on`, `buildUnsubscribeCallback`,
  `handleNotifyTreeChanged`, `startListening`'s internal `nodeChanged` /
  `nodeRemoved` listeners, `runSilent`, `runTransaction`,
  `handleReactiveDependentNodeChanged` (reactive dependency layer).

Modelling conventions:

* A tree node is identified by a `Ref` (a natural number) standing for the
  raw ("unproxied") JS object; its canonical base proxy is in one-to-one
  correspondence with it, so the same `Ref` denotes both.
* JS values stored in object fields are `JSValue`; `vRef r b` is an object
  reference, where `b = true` means the reference is the custom proxy of
  node `r` and `b = false` means it is a plain (unwrapped) object.
  JS `!==` on these values is decidable equality of `JSValue`.
* The `reproxyMap` of `reproxy.ts` becomes `St.reproxy : List (Ref × Nat)`:
  every call of `updateReproxyNode` stores a globally fresh number
  (`nextVersion`), modelling the fresh referential identity of the
  `new Proxy(...)` allocated there.  Two snapshots are `===` iff their
  version numbers agree; a missing entry means no snapshot exists and
  `getReproxyNode` falls back to the base proxy.
* Listener callbacks are identified by numbers.  Invoking a callback
  appends a `Notification` to a log; callbacks whose id is listed in
  `St.throwing` throw when invoked (modelling listener callbacks that
  raise).  Exceptions are modelled by `Res`, a result type that carries
  the (global, mutable) state across the throw, exactly as a JS exception
  leaves module-level state behind.
* Recursive walks (`handleNotifyTreeChanged`, `buildProxy`) take fuel;
  running out of fuel is an error, and well-formedness hypotheses in the
  theorems guarantee enough fuel for terminating parent chains.
-/

namespace Retree

/-- Identity of a raw tree node (and of its canonical base proxy). -/
abbrev Ref := Nat

/-- A JS value stored in an object field.  `vRef r true` is the custom proxy
of node `r`; `vRef r false` is a plain object reference.  `vPrim 0` stands
for a falsy primitive, `vPrim (n+1)` for truthy primitives. -/
inductive JSValue where
  | vUndefined : JSValue
  | vNull : JSValue
  | vPrim : Nat → JSValue
  | vRef : Ref → Bool → JSValue
deriving DecidableEq, Repr

/-- JS truthiness of a `JSValue` (`undefined`, `null` and falsy primitives
are falsy; object references are truthy). -/
def JSValue.truthy : JSValue → Bool
  | .vUndefined => false
  | .vNull => false
  | .vPrim n => n != 0
  | .vRef _ _ => true

/-- The parent back-reference stored in a proxy handler
(`proxyHandler[proxiedParentKey]` of `proxy.ts`).  `nullParent` is the
literal `null` stored for a root; `linkObj pn pName` is an `IProxyParent`
object `\x7b proxyNode, propName \x7d` whose two fields may each be `null`
(both are cleared by `handleNodeRemoved`). -/
inductive ParentLink where
  | nullParent : ParentLink
  | linkObj : Option Ref → Option String → ParentLink
deriving DecidableEq, Repr

/-- The custom proxy handler of one wrapped node: the raw target's own
fields (`raw`), the wrapped-children map (`proxiedChildrenKey`), and the
parent link (`proxiedParentKey`). -/
structure NodeHandler where
  raw : List (String × JSValue)
  children : List (String × Ref)
  parent : ParentLink
deriving DecidableEq, Repr

/-- The three public event kinds of `Retree.on`. -/
inductive EventKind where
  | nodeChanged : EventKind
  | treeChanged : EventKind
  | nodeRemoved : EventKind
deriving DecidableEq, Repr

/-- One delivered listener invocation: the event kind, the raw node the
listener registry was keyed by, the callback id, and the reproxy version
passed as payload (`none` when the payload was the base proxy or when the
event has no payload). -/
structure Notification where
  kind : EventKind
  nodeKey : Ref
  listener : Nat
  payload : Option Nat
deriving DecidableEq, Repr

/-- The captured `emitTreeChanged` closure stored in a pending transaction:
`origin cbs` is the closure built for the node that originally changed
(it re-reads that node's reproxy at flush time); `parentCap cbs v` is the
closure built for a reproxied ancestor (it captured the reproxy version
`v` at mutation time). -/
inductive TreeEmitCap where
  | origin : List Nat → TreeEmitCap
  | parentCap : List Nat → Nat → TreeEmitCap
deriving DecidableEq, Repr

/-- An `ITransaction` record of `transactions.ts`: at most one pending
emission per event kind.  `nc` stores the reproxy version captured by the
`emitNodeChanged` closure; `nr` marks a pending `emitNodeRemoved`. -/
structure PendingTx where
  nc : Option Nat
  tc : Option TreeEmitCap
  nr : Bool
deriving DecidableEq, Repr

/-- Errors: JS exceptions raised by the engine. -/
inductive Err where
  | invalidMove : Err
  | typeError : Err
  | noHandler : Err
  | fuelOut : Err
  | listenerThrew : Nat → Err
  | notAttached : Err
  | inconsistentComparisons : Err
  | userErr : Err
deriving DecidableEq, Repr

/-- The global state of the engine: wrapped-node handlers, the reproxy map
with its fresh-identity counter, the three listener registries of
`Retree`, the `Transactions` flags and pending map, whether the internal
emitter listeners are registered (`listening`), the set of listener ids
that throw when invoked, and the log of delivered notifications. -/
structure St where
  handlers : List (Ref × NodeHandler)
  /-- Raw, not-yet-wrapped object values reachable from user code, keyed
  by reference: the field lists `buildProxy` reads via `Object.entries`
  when it wraps a fresh object. -/
  rawObjs : List (Ref × List (String × JSValue))
  reproxy : List (Ref × Nat)
  nextVersion : Nat
  ncLs : List (Ref × List Nat)
  tcLs : List (Ref × List Nat)
  nrLs : List (Ref × List Nat)
  skipEmit : Bool
  skipReproxy : Bool
  runningTransaction : Bool
  pending : List (Ref × PendingTx)
  listening : Bool
  throwing : List Nat
  log : List Notification
deriving DecidableEq, Repr

/-- Result of running an engine operation: like a JS call, it either
returns a value or throws, and in both cases the module-level state
(`St`) persists. -/
inductive Res (α : Type) where
  | ok : α → St → Res α
  | err : Err → St → Res α
deriving DecidableEq, Repr

/-- The state carried by a result (JS global state survives exceptions). -/
def Res.state {α : Type} : Res α → St
  | .ok _ s => s
  | .err _ s => s

/-- Insert-or-replace in an association list, keeping the original entry
position on replacement (the behaviour of `Map.set` in JS). -/
def alSet {α : Type} [DecidableEq α] {β : Type} :
    List (α × β) → α → β → List (α × β)
  | [], k, v => [(k, v)]
  | (k', v') :: rest, k, v =>
      if k' = k then (k, v) :: rest else (k', v') :: alSet rest k v

/-- Remove a key from an association list (the behaviour of `Map.delete`). -/
def alRemove {α : Type} [DecidableEq α] {β : Type} :
    List (α × β) → α → List (α × β)
  | [], _ => []
  | (k', v') :: rest, k =>
      if k' = k then rest else (k', v') :: alRemove rest k

/-- Association-list lookup (the behaviour of `Map.get`). -/
def alGet {α : Type} [DecidableEq α] {β : Type} :
    List (α × β) → α → Option β
  | [], _ => none
  | (k', v') :: rest, k => if k' = k then some v' else alGet rest k

theorem alGet_alSet_self {α : Type} [DecidableEq α] {β : Type}
    (l : List (α × β)) (k : α) (v : β) : alGet (alSet l k v) k = some v := by
  induction l with
  | nil => simp [alSet, alGet]
  | cons hd tl ih =>
      by_cases h : hd.1 = k <;> simp [alSet, alGet, h, ih]

theorem alGet_alSet_ne {α : Type} [DecidableEq α] {β : Type}
    (l : List (α × β)) (k k' : α) (v : β) (h : k' ≠ k) :
    alGet (alSet l k v) k' = alGet l k' := by
  induction l with
  | nil => simp [alSet, alGet, Ne.symm h]
  | cons hd tl ih =>
      by_cases h2 : hd.1 = k
      · simp [alSet, alGet, h2, Ne.symm h]
      · simp [alSet, alGet, h2, ih]

theorem alGet_alRemove_ne {α : Type} [DecidableEq α] {β : Type}
    (l : List (α × β)) (k k' : α) (h : k' ≠ k) :
    alGet (alRemove l k) k' = alGet l k' := by
  induction l with
  | nil => simp [alRemove, alGet]
  | cons hd tl ih =>
      by_cases h2 : hd.1 = k
      · simp [alRemove, alGet, h2, Ne.symm h]
      · simp [alRemove, alGet, h2, ih]

/-! ## State helpers -/

/-- Replace the raw-field map of node `n` (the effect of `Reflect.set` /
`Reflect.deleteProperty` on the proxy target). -/
def St.setRawField (s : St) (n : Ref) (prop : String) (v : JSValue) : St :=
  match alGet s.handlers n with
  | none => s
  | some h =>
      { s with handlers := alSet s.handlers n { h with raw := alSet h.raw prop v } }

/-- Delete a raw field of node `n`. -/
def St.deleteRawField (s : St) (n : Ref) (prop : String) : St :=
  match alGet s.handlers n with
  | none => s
  | some h =>
      { s with handlers := alSet s.handlers n { h with raw := alRemove h.raw prop } }

/-- Record a wrapped child in the `proxiedChildrenKey` map of node `n`
(`proxyHandler[proxiedChildrenKey][prop] = valueToSet`). -/
def St.setChild (s : St) (n : Ref) (prop : String) (c : Ref) : St :=
  match alGet s.handlers n with
  | none => s
  | some h =>
      { s with handlers := alSet s.handlers n { h with children := alSet h.children prop c } }

/-- Overwrite the parent link of node `c` (both `IProxyParent` fields are
set through the shared reference, so every proxy of `c` observes it). -/
def St.setParent (s : St) (c : Ref) (p : ParentLink) : St :=
  match alGet s.handlers c with
  | none => s
  | some h =>
      { s with handlers := alSet s.handlers c { h with parent := p } }

/-- The raw field value the `set` trap compares against:
`const prev = (target as any)[prop]` (a missing property reads as
`undefined`). -/
def rawField (s : St) (n : Ref) (prop : String) : JSValue :=
  match alGet s.handlers n with
  | none => .vUndefined
  | some h => (alGet h.raw prop).getD .vUndefined

/-- A property read through the custom proxy's `get` trap: the
`proxiedChildrenKey` entry wins (it is always a truthy proxy object),
otherwise the raw target field is returned. -/
def proxyGet (s : St) (n : Ref) (prop : String) : JSValue :=
  match alGet s.handlers n with
  | none => .vUndefined
  | some h =>
      match alGet h.children prop with
      | some c => .vRef c true
      | none => (alGet h.raw prop).getD .vUndefined

/-- The listener registry for one event kind (`nodeChangedListeners`,
`treeChangedListeners`, `nodeRemovedListeners`). -/
def St.lsMap (s : St) : EventKind → List (Ref × List Nat)
  | .nodeChanged => s.ncLs
  | .treeChanged => s.tcLs
  | .nodeRemoved => s.nrLs

/-- Store back the listener registry for one event kind. -/
def St.setLsMap (s : St) : EventKind → List (Ref × List Nat) → St
  | .nodeChanged, m => { s with ncLs := m }
  | .treeChanged, m => { s with tcLs := m }
  | .nodeRemoved, m => { s with nrLs := m }

/-! ## reproxy.ts -/

/-- `updateReproxyNode`: throws when the node has no custom proxy handler,
otherwise allocates a fresh snapshot identity for the node's raw object
and stores it in the reproxy map, returning the fresh identity. -/
def updateReproxyRun (n : Ref) (s : St) : Res Nat :=
  match alGet s.handlers n with
  | none => .err .noHandler s
  | some _ =>
      .ok s.nextVersion
        { s with
          reproxy := alSet s.reproxy n s.nextVersion
          nextVersion := s.nextVersion + 1 }

/-- `getReproxyNode`: the current snapshot identity of a node, `none`
meaning the base proxy itself is returned (no snapshot minted yet). -/
def getReproxySnapshot (s : St) (n : Ref) : Option Nat :=
  alGet s.reproxy n

/-! ## Listener invocation -/

/-- Invoke one listener callback: the invocation is recorded in the log,
then the callback body runs — callbacks listed in `throwing` raise. -/
def invokeRun (kind : EventKind) (nodeKey : Ref) (cb : Nat)
    (payload : Option Nat) (s : St) : Res Unit :=
  let s1 := { s with log := s.log ++ [⟨kind, nodeKey, cb, payload⟩] }
  if cb ∈ s.throwing then .err (.listenerThrew cb) s1 else .ok () s1

/-- Invoke a list of callbacks in order with a fixed payload, stopping at
the first exception (the behaviour of `Array.prototype.forEach`, which
does not catch). -/
def invokeEachRun (kind : EventKind) (nodeKey : Ref) (payload : Option Nat) :
    List Nat → St → Res Unit
  | [], s => .ok () s
  | cb :: rest, s =>
      match invokeRun kind nodeKey cb payload s with
      | .err e s1 => .err e s1
      | .ok _ s1 => invokeEachRun kind nodeKey payload rest s1

/-- The body of the `emitNodeChangedListeners` closure from
`startListening`: re-reads the current `nodeChangedListeners` for the node,
copies the list, and invokes each callback with the captured reproxy. -/
def emitNodeChangedListenersRun (n : Ref) (payload : Option Nat) (s : St) :
    Res Unit :=
  invokeEachRun .nodeChanged n payload ((alGet s.ncLs n).getD []) s

/-- The body of the `emitNodeRemovedListeners` closure from
`startListening`: re-reads the current `nodeRemovedListeners` for the node
and invokes each callback (no payload). -/
def emitNodeRemovedListenersRun (n : Ref) (s : St) : Res Unit :=
  invokeEachRun .nodeRemoved n none ((alGet s.nrLs n).getD []) s

/-! ## transactions.ts -/

/-- `Transactions.upsertPendingTransaction`: the source builds a merged
record in a local variable but then stores the *upsert argument* itself —
`this.pendingTransactions.set(node, upsertTransaction)` — so a later
upsert for the same node replaces the whole pending record. -/
def upsertPendingRun (n : Ref) (tx : PendingTx) (s : St) : St :=
  { s with pending := alSet s.pending n tx }

/-! ## Parent access (Retree.getParentInternal) -/

/-- `Retree.getParentInternal`: throws when the argument has no custom
proxy handler; returns `null` when the parent link is `null` or its
`proxyNode` field is `null`; otherwise the parent's base proxy / raw node
(one `Ref` in this model). -/
def getParentInternalRun (r : Ref) (s : St) : Res (Option Ref) :=
  match alGet s.handlers r with
  | none => .err .noHandler s
  | some h =>
      match h.parent with
      | .nullParent => .ok none s
      | .linkObj none _ => .ok none s
      | .linkObj (some p) _ => .ok (some p) s

/-- The parent pointer a handler list assigns to a node: `none` when the
node has no handler, `some none` for a root (or severed) link, and
`some (some p)` for a live link to `p`.  Pure counterpart of
`getParentInternalRun` used to describe ancestor chains. -/
def parentRef (hs : List (Ref × NodeHandler)) (r : Ref) : Option (Option Ref) :=
  (alGet hs r).map fun h =>
    match h.parent with
    | .nullParent => none
    | .linkObj none _ => none
    | .linkObj (some p) _ => some p

/-- The chain of strict ancestors of `r` (bottom-up), when the walk
reaches a root within `fuel` steps and every node on the way has a
handler. -/
def walkChain (hs : List (Ref × NodeHandler)) : Nat → Ref → Option (List Ref)
  | 0, _ => none
  | fuel + 1, r =>
      match parentRef hs r with
      | none => none
      | some none => some []
      | some (some p) => (walkChain hs fuel p).map (p :: ·)

/-! ## proxy.ts: handleNodeRemoved and reparentProxy -/

/-- `handleNodeRemoved(node, prop)`: reads the outgoing value through the
proxy; if it is an object with a custom proxy handler whose parent link's
`propName` still names `prop`, clears both fields of the (shared) parent
link and reports the removed node; if the link was already repointed (or
is `null`), reports `undefined` so no removal is emitted.  Reading
`"[[Handler]]"` of the JS literal `null` throws a `TypeError`. -/
def handleNodeRemovedRun (n : Ref) (prop : String) (s : St) : Res JSValue :=
  let nodeRemoved := proxyGet s n prop
  match nodeRemoved with
  | .vNull => .err .typeError s
  | .vRef c _ =>
      match alGet s.handlers c with
      | none => .ok nodeRemoved s
      | some ch =>
          match ch.parent with
          | .nullParent => .ok .vUndefined s
          | .linkObj _ pName =>
              if pName ≠ some prop then .ok .vUndefined s
              else
                .ok nodeRemoved
                  (s.setParent c (.linkObj none none))
  | v => .ok v s

/-- `reparentProxy(proxy, newParent)`: when the current parent link object
is `null` (a node built as a root) nothing is written; otherwise a
non-null `proxyNode` different from the destination throws (single-parent
rule), and otherwise both fields of the link are overwritten in place. -/
def reparentProxyRun (c : Ref) (n : Ref) (prop : String) (s : St) : Res Unit :=
  match alGet s.handlers c with
  | none => .err .noHandler s
  | some h =>
      match h.parent with
      | .nullParent => .ok () s
      | .linkObj curPn _ =>
          if curPn ≠ none ∧ curPn ≠ some n then .err .invalidMove s
          else .ok () (s.setParent c (.linkObj (some n) (some prop)))

/-! ## Retree.handleNotifyTreeChanged -/

/-- The final loop of `handleNotifyTreeChanged` at the root: reproxy each
checked ancestor in order (nearest first), emit (or defer) its confirmed
`treeChanged` callbacks with the captured reproxy, and stop after the
topmost listened node. -/
def reproxyParentsLoopRun (confirmed : List (Ref × List Nat))
    (top : Option Ref) : List Ref → St → Res Unit
  | [], s => .ok () s
  | pNode :: rest, s =>
      match updateReproxyRun pNode s with
      | .err e s1 => .err e s1
      | .ok v s1 =>
          let afterEmit : Res Unit :=
            if s1.skipEmit then .ok () s1
            else
              if s1.runningTransaction then
                .ok ()
                  (upsertPendingRun pNode
                    ⟨none, some (.parentCap ((alGet confirmed pNode).getD []) v), false⟩ s1)
              else
                invokeEachRun .treeChanged pNode (some v)
                  ((alGet confirmed pNode).getD []) s1
          match afterEmit with
          | .err e s2 => .err e s2
          | .ok _ s2 =>
              if top = some pNode then .ok () s2
              else reproxyParentsLoopRun confirmed top rest s2

/-- `Retree.handleNotifyTreeChanged`: walk from the changed node to the
root collecting `treeChanged` listeners; at the root, emit (or defer into
the pending transaction) for the originally changed node, then reproxy
and emit for each checked ancestor up to the topmost listened node.
`node` is the raw node, `proxyNode` its base proxy (one `Ref` here),
`changed` the original `proxyNodeThatChanged`. -/
def handleNotifyRun : Nat → Ref → Ref → Ref → Option Ref →
    List (Ref × List Nat) → List Ref → St → Res Unit
  | 0, _, _, _, _, _, _, s => .err .fuelOut s
  | fuel + 1, node, proxyNode, changed, top, confirmed, checked, s =>
      let tcs := (alGet s.tcLs node).getD []
      let confirmed1 :=
        if tcs.length > 0 then alSet confirmed proxyNode tcs else confirmed
      let top1 := if tcs.length > 0 then some proxyNode else top
      match getParentInternalRun proxyNode s with
      | .err e s1 => .err e s1
      | .ok (some p) s1 =>
          handleNotifyRun fuel p p changed top1 confirmed1 (checked ++ [p]) s1
      | .ok none s1 =>
          if confirmed1.length = 0 then .ok () s1
          else
            let afterEmit : Res Unit :=
              if s1.skipEmit then .ok () s1
              else
                if s1.runningTransaction then
                  .ok ()
                    (upsertPendingRun changed
                      ⟨none, some (.origin ((alGet confirmed1 changed).getD [])), false⟩ s1)
                else
                  invokeEachRun .treeChanged changed (getReproxySnapshot s1 changed)
                    ((alGet confirmed1 changed).getD []) s1
            match afterEmit with
            | .err e s2 => .err e s2
            | .ok _ s2 =>
                if top1 = some changed then .ok () s2
                else reproxyParentsLoopRun confirmed1 top1 checked s2

/-! ## startListening's internal emitter listeners -/

/-- The internal `nodeChanged` listener registered by `startListening`
(the `ReactiveNode` branch does not apply to the plain object nodes this
model covers): emit (or defer) the node's own `nodeChanged` callbacks
unless `skipEmit`, then always run `handleNotifyTreeChanged` so ancestors
get reproxied. -/
def nodeChangeListenerRun (fuel : Nat) (n : Ref) (v : Nat) (s : St) :
    Res Unit :=
  let afterEmit : Res Unit :=
    if s.skipEmit then .ok () s
    else
      if s.runningTransaction then
        .ok () (upsertPendingRun n ⟨some v, none, false⟩ s)
      else emitNodeChangedListenersRun n (some v) s
  match afterEmit with
  | .err e s1 => .err e s1
  | .ok _ s1 => handleNotifyRun fuel n n n none [] [] s1

/-- The internal `nodeRemoved` listener registered by `startListening`:
keyed by the raw node the emitter passed (the parent whose property
changed); removal notifications do not propagate to ancestors. -/
def nodeRemovedListenerRun (n : Ref) (s : St) : Res Unit :=
  if s.skipEmit then .ok () s
  else
    if s.runningTransaction then
      .ok () (upsertPendingRun n ⟨none, none, true⟩ s)
    else emitNodeRemovedListenersRun n s

/-- `emitter.emit("nodeChanged", ...)`: reaches the internal listener only
while `Retree` has it registered. -/
def emitterNodeChangedRun (fuel : Nat) (n : Ref) (v : Nat) (s : St) :
    Res Unit :=
  if s.listening then nodeChangeListenerRun fuel n v s else .ok () s

/-- `emitter.emit("nodeRemoved", ...)`. -/
def emitterNodeRemovedRun (n : Ref) (s : St) : Res Unit :=
  if s.listening then nodeRemovedListenerRun n s else .ok () s

/-! ## proxy.ts: buildProxy -/

mutual
/-- `buildProxy(object, emitter, parent?)` on an object reference: install
a fresh handler whose raw fields come from the raw object, recursively
wrap every structured field into the children map, then mint the initial
reproxy.  Wrapping the JS literal `null` (`new Proxy(null, handler)`)
throws a `TypeError` — this is the fate of `w.p = null`. -/
def buildProxyObjRun : Nat → Ref → Option (Ref × String) → St → Res Ref
  | 0, _, _, s => .err .fuelOut s
  | fuel + 1, c, parent, s =>
      let fields := (alGet s.rawObjs c).getD []
      let pl : ParentLink :=
        match parent with
        | none => .nullParent
        | some (p, prop) => .linkObj (some p) (some prop)
      let s1 := { s with handlers := alSet s.handlers c ⟨fields, [], pl⟩ }
      match buildChildrenRun fuel c fields s1 with
      | .err e s2 => .err e s2
      | .ok _ s2 =>
          match updateReproxyRun c s2 with
          | .err e s3 => .err e s3
          | .ok _ s3 => .ok c s3
termination_by fuel => (fuel, 0)

/-- The `Object.entries(object).forEach` loop of `buildProxy`: wrap every
structured field value (a `null` field value also reaches `buildProxy`
and throws). -/
def buildChildrenRun : Nat → Ref → List (String × JSValue) → St → Res Unit
  | _, _, [], s => .ok () s
  | fuel, c, (prop, v) :: rest, s =>
      match v with
      | .vNull => .err .typeError s
      | .vRef g _ =>
          match buildProxyObjRun fuel g (some (c, prop)) s with
          | .err e s1 => .err e s1
          | .ok gp s1 => buildChildrenRun fuel c rest (s1.setChild c prop gp)
      | _ => buildChildrenRun fuel c rest s
termination_by fuel _ l => (fuel, l.length + 1)
end

/-- `buildProxy` on an arbitrary value: `new Proxy` demands an object
target, so `null` (and primitives) throw a `TypeError`. -/
def buildProxyRun (fuel : Nat) (v : JSValue) (parent : Option (Ref × String))
    (s : St) : Res Ref :=
  match v with
  | .vRef c _ => buildProxyObjRun fuel c parent s
  | _ => .err .typeError s

/-! ## proxy.ts: the set and deleteProperty traps -/

/-- The tail of the `set` trap after `Reflect.set`: unless `skipReproxy`,
mint a new reproxy for the node and emit `nodeChanged` (even under
`skipEmit`, so parents still get reproxied), then emit `nodeRemoved` when
a truthy value was displaced and emission is not suppressed. -/
def finishAssignRun (fuel : Nat) (n : Ref) (nodeRemoved : JSValue) (s : St) :
    Res Bool :=
  if s.skipReproxy then .ok true s
  else
    match updateReproxyRun n s with
    | .err e s1 => .err e s1
    | .ok v s1 =>
        match emitterNodeChangedRun fuel n v s1 with
        | .err e s2 => .err e s2
        | .ok _ s2 =>
            if nodeRemoved.truthy && !s2.skipEmit then
              match emitterNodeRemovedRun n s2 with
              | .err e s3 => .err e s3
              | .ok _ s3 => .ok true s3
            else .ok true s2

/-- The `set` trap of `buildProxy`: compare the new value against the raw
target field by identity (`prev !== newValue`); a no-op write returns
`true` immediately.  A committed write first runs `handleNodeRemoved`
when the incoming value is `undefined`/`null`/an object, then wraps or
reparents object values (`"constructor"` is set raw and returns early),
stores the value, and runs the reproxy/emit tail. -/
def assignRun (fuel : Nat) (n : Ref) (prop : String) (newValue : JSValue)
    (s : St) : Res Bool :=
  let prev := rawField s n prop
  if prev = newValue then .ok true s
  else
    let step1 : Res JSValue :=
      match newValue with
      | .vUndefined => handleNodeRemovedRun n prop s
      | .vNull => handleNodeRemovedRun n prop s
      | .vRef _ _ => handleNodeRemovedRun n prop s
      | _ => .ok .vUndefined s
    match step1 with
    | .err e s1 => .err e s1
    | .ok nodeRemoved s1 =>
        match newValue with
        | .vNull =>
            if prop = "constructor" then .ok true (s1.setRawField n prop newValue)
            else
              match buildProxyRun fuel .vNull (some (n, prop)) s1 with
              | .err e s2 => .err e s2
              | .ok _ s2 => .err .typeError s2
        | .vRef c isProxy =>
            if prop = "constructor" then .ok true (s1.setRawField n prop newValue)
            else
              let step2 : Res Ref :=
                if isProxy then
                  match reparentProxyRun c n prop s1 with
                  | .err e s2 => .err e s2
                  | .ok _ s2 => .ok c s2
                else buildProxyRun fuel (.vRef c false) (some (n, prop)) s1
              match step2 with
              | .err e s2 => .err e s2
              | .ok cRef s2 =>
                  let s3 := (s2.setChild n prop cRef).setRawField n prop (.vRef cRef true)
                  finishAssignRun fuel n nodeRemoved s3
        | _ => finishAssignRun fuel n nodeRemoved (s1.setRawField n prop newValue)

/-- The `deleteProperty` trap of `buildProxy`: resolve the base proxy via
the reproxy map (the trap has no receiver), run `handleNodeRemoved`
through it, delete the raw field, then reproxy/emit as in the `set`
trap.  When no reproxy exists for the target, `handleNodeRemoved`
receives `undefined` and the reproxy/`nodeChanged` step is skipped
(the `console.warn` branch). -/
def deletePropRun (fuel : Nat) (n : Ref) (prop : String) (s : St) : Res Bool :=
  let hasBase := (getReproxySnapshot s n).isSome
  let step1 : Res JSValue :=
    if hasBase then handleNodeRemovedRun n prop s else .ok .vUndefined s
  match step1 with
  | .err e s1 => .err e s1
  | .ok nodeRemoved s1 =>
      let s2 := s1.deleteRawField n prop
      if s2.skipReproxy then .ok true s2
      else
        let step3 : Res Unit :=
          if hasBase then
            match updateReproxyRun n s2 with
            | .err e s3 => .err e s3
            | .ok v s3 => emitterNodeChangedRun fuel n v s3
          else .ok () s2
        match step3 with
        | .err e s3 => .err e s3
        | .ok _ s3 =>
            if nodeRemoved.truthy && !s3.skipEmit then
              match emitterNodeRemovedRun n s3 with
              | .err e s4 => .err e s4
              | .ok _ s4 => .ok true s4
            else .ok true s3

/-! ## Retree.runSilent / Retree.runTransaction -/

/-- `Retree.runSilent(transaction, skipReproxy = true)`: sets the two
suppression flags, runs the body, then clears them.  There is no
`try`/`finally`, so an exception in the body leaves the flags as the body
left them. -/
def runSilentRun (body : St → Res Unit) (skipReproxy : Bool) (s : St) :
    Res Unit :=
  let s1 := { s with skipEmit := true, skipReproxy := skipReproxy }
  match body s1 with
  | .err e s2 => .err e s2
  | .ok _ s2 => .ok () { s2 with skipEmit := false, skipReproxy := false }

/-- The `pendingTransactions.forEach` body of
`Transactions.runPendingTransactions`: for each pending record run the
captured `emitNodeChanged`, `emitTreeChanged` and `emitNodeRemoved`
closures in that order. -/
def runPendingListRun : List (Ref × PendingTx) → St → Res Unit
  | [], s => .ok () s
  | (n, tx) :: rest, s =>
      let r1 : Res Unit :=
        match tx.nc with
        | some v => emitNodeChangedListenersRun n (some v) s
        | none => .ok () s
      match r1 with
      | .err e s1 => .err e s1
      | .ok _ s1 =>
          let r2 : Res Unit :=
            match tx.tc with
            | some (.origin cbs) =>
                invokeEachRun .treeChanged n (getReproxySnapshot s1 n) cbs s1
            | some (.parentCap cbs v) =>
                invokeEachRun .treeChanged n (some v) cbs s1
            | none => .ok () s1
          match r2 with
          | .err e s2 => .err e s2
          | .ok _ s2 =>
              let r3 : Res Unit :=
                if tx.nr then emitNodeRemovedListenersRun n s2 else .ok () s2
              match r3 with
              | .err e s3 => .err e s3
              | .ok _ s3 => runPendingListRun rest s3

/-- `Transactions.runPendingTransactions`: run every pending record, then
clear the map (`clear` is skipped if a callback threw mid-iteration). -/
def runPendingRun (s : St) : Res Unit :=
  match runPendingListRun s.pending s with
  | .err e s1 => .err e s1
  | .ok _ s1 => .ok () { s1 with pending := [] }

/-- `Retree.runTransaction(transaction)`: set `runningTransaction`, run
the body, flush the pending records once, then reset the flag.  No
`try`/`finally` protects the flag either. -/
def runTransactionRun (body : St → Res Unit) (s : St) : Res Unit :=
  let s1 := { s with runningTransaction := true }
  match body s1 with
  | .err e s2 => .err e s2
  | .ok _ s2 =>
      match runPendingRun s2 with
      | .err e s3 => .err e s3
      | .ok _ s3 => .ok () { s3 with runningTransaction := false }

/-! ## Retree.on and unsubscribe -/

/-- `getUnproxiedNode(node)`: unwraps a custom proxy to its raw node and
otherwise returns the argument itself (`return node`), so it never
produces `undefined` for an object argument. -/
def getUnproxiedNodeModel (r : Ref) (isProxy : Bool) : Option Ref :=
  if isProxy then some r else some r

/-- `startListening` (the part visible to this model: the internal
emitter listeners become registered). -/
def startListeningSt (s : St) : St := { s with listening := true }

/-- `stopListening`: unregister the internal emitter listeners and clear
all three listener registries. -/
def stopListeningSt (s : St) : St :=
  { s with listening := false, ncLs := [], tcLs := [], nrLs := [] }

/-- `Retree.on(node, listenerType, callback)` for a plain object `node`
(`isProxy` tells whether the argument is a custom proxy): start
listening if needed, resolve the raw node, register the callback in the
registry for the event kind.  The `!unproxiedNode` guard of the source is
kept verbatim; `getUnproxiedNodeModel` shows it can never fire. -/
def onRun (r : Ref) (isProxy : Bool) (kind : EventKind) (cb : Nat) (s : St) :
    Res Unit :=
  let s1 := if s.listening then s else startListeningSt s
  match getUnproxiedNodeModel r isProxy with
  | none => .err .notAttached s1
  | some u =>
      let m := s1.lsMap kind
      let m2 := alSet m u (((alGet m u).getD []) ++ [cb])
      .ok () (s1.setLsMap kind m2)

/-- `Array.prototype.splice(findIndex(cb), 1)`: remove the first
occurrence of `cb`, and when `findIndex` returned `-1`, remove the last
element of the array (the JS semantics of `splice(-1, 1)`). -/
def spliceFindRemove (ls : List Nat) (cb : Nat) : List Nat :=
  match ls.findIdx? (· = cb) with
  | some i => ls.take i ++ ls.drop (i + 1)
  | none => ls.dropLast

/-- The unsubscribe closure built by `Retree.buildUnsubscribeCallback`
for a plain object node: splice the callback out of the captured
registry, delete the key when the list empties, and stop listening when
all three registries are empty. -/
def unsubscribeRun (kind : EventKind) (u : Ref) (cb : Nat) (s : St) : St :=
  let s1 :=
    match alGet (s.lsMap kind) u with
    | none => s
    | some ls =>
        let ls2 := spliceFindRemove ls cb
        if ls2.length = 0 then s.setLsMap kind (alRemove (s.lsMap kind) u)
        else s.setLsMap kind (alSet (s.lsMap kind) u ls2)
  if s1.tcLs.length = 0 ∧ s1.ncLs.length = 0 ∧ s1.nrLs.length = 0 then
    stopListeningSt s1
  else s1

/-! ## Retree.handleReactiveDependentNodeChanged (reactive layer) -/

/-- The comparison loop of `handleReactiveDependentNodeChanged`:
`for (let i = 0; ...) if (latestComparisons[i] !== previousComparisons[i])
shouldNotify = true` — true iff some position differs (the lists have
equal length when this runs). -/
def comparisonsChanged : List Nat → List Nat → Bool
  | a :: arest, b :: brest => (a != b) || comparisonsChanged arest brest
  | _, _ => false

/-- One dependent's step of `handleReactiveDependentNodeChanged`, fired
when a declared dependency target received `nodeChanged`.  `recorded` is
the `comparisons` list stored in the dependent back-link when the
dependency was (re)registered; `latest` is the freshly re-evaluated
`dependencies[index].comparisons`.  Result: whether the derived node's
own change notification path runs, and the comparisons recorded
afterwards (on notify, `handleReactiveNode` re-registers the back-link
with the current comparisons via `setReactiveDependents`). -/
def reactiveDependentStep (recorded latest : Option (List Nat)) :
    Except Err (Bool × Option (List Nat)) :=
  match recorded with
  | none => .ok (true, latest)
  | some prev =>
      match latest with
      | none => .error .inconsistentComparisons
      | some latestC =>
          if latestC.length ≠ prev.length then .error .inconsistentComparisons
          else if comparisonsChanged latestC prev then .ok (true, some latestC)
          else .ok (false, some prev)

/-! ## Observation helpers -/

/-- Count the delivered invocations of one callback for one event kind. -/
def countInvocations (l : List Notification) (kind : EventKind) (cb : Nat) :
    Nat :=
  (l.filter fun x => decide (x.kind = kind ∧ x.listener = cb)).length

/-! ## Frame lemmas

`FrameOk s s' touched` says that an operation leading from state `s` to
state `s'` left the tree topology, the listener registries and every flag
unchanged, allocated identities monotonically, and changed the snapshot
(reproxy) map at most at the nodes in `touched`.  The pending map and the
log are unconstrained. -/
structure FrameOk (s s' : St) (touched : List Ref) : Prop where
  handlers : s'.handlers = s.handlers
  rawObjs : s'.rawObjs = s.rawObjs
  ncLs : s'.ncLs = s.ncLs
  tcLs : s'.tcLs = s.tcLs
  nrLs : s'.nrLs = s.nrLs
  skipEmit : s'.skipEmit = s.skipEmit
  skipReproxy : s'.skipReproxy = s.skipReproxy
  runningTransaction : s'.runningTransaction = s.runningTransaction
  listening : s'.listening = s.listening
  throwing : s'.throwing = s.throwing
  nextVersion : s.nextVersion ≤ s'.nextVersion
  reproxy : ∀ r, r ∉ touched → alGet s'.reproxy r = alGet s.reproxy r

theorem FrameOk.refl (s : St) (t : List Ref) : FrameOk s s t :=
  ⟨rfl, rfl, rfl, rfl, rfl, rfl, rfl, rfl, rfl, rfl, Nat.le_refl _,
    fun _ _ => rfl⟩

theorem FrameOk.trans {s1 s2 s3 : St} {t : List Ref}
    (a : FrameOk s1 s2 t) (b : FrameOk s2 s3 t) : FrameOk s1 s3 t :=
  ⟨b.handlers.trans a.handlers, b.rawObjs.trans a.rawObjs,
    b.ncLs.trans a.ncLs, b.tcLs.trans a.tcLs, b.nrLs.trans a.nrLs,
    b.skipEmit.trans a.skipEmit, b.skipReproxy.trans a.skipReproxy,
    b.runningTransaction.trans a.runningTransaction,
    b.listening.trans a.listening, b.throwing.trans a.throwing,
    a.nextVersion.trans b.nextVersion,
    fun r hr => (b.reproxy r hr).trans (a.reproxy r hr)⟩

theorem FrameOk.mono {s s' : St} {t t' : List Ref}
    (a : FrameOk s s' t) (h : ∀ x, x ∈ t → x ∈ t') : FrameOk s s' t' :=
  ⟨a.handlers, a.rawObjs, a.ncLs, a.tcLs, a.nrLs, a.skipEmit,
    a.skipReproxy, a.runningTransaction, a.listening, a.throwing,
    a.nextVersion, fun r hr => a.reproxy r (fun hx => hr (h r hx))⟩

theorem invokeRun_state (kind : EventKind) (nodeKey : Ref) (cb : Nat)
    (payload : Option Nat) (s : St) :
    (invokeRun kind nodeKey cb payload s).state
      = { s with log := s.log ++ [⟨kind, nodeKey, cb, payload⟩] } := by
  unfold invokeRun Res.state
  by_cases h : cb ∈ s.throwing <;> simp [h]

theorem invokeRun_frame (kind : EventKind) (nodeKey : Ref) (cb : Nat)
    (payload : Option Nat) (s : St) (t : List Ref) :
    FrameOk s (invokeRun kind nodeKey cb payload s).state t := by
  rw [invokeRun_state]
  exact ⟨rfl, rfl, rfl, rfl, rfl, rfl, rfl, rfl, rfl, rfl,
    Nat.le_refl _, fun _ _ => rfl⟩

theorem invokeEachRun_frame (kind : EventKind) (nodeKey : Ref)
    (payload : Option Nat) : ∀ (cbs : List Nat) (s : St) (t : List Ref),
    FrameOk s (invokeEachRun kind nodeKey payload cbs s).state t := by
  intro cbs
  induction cbs with
  | nil => intro s t; exact FrameOk.refl s t
  | cons cb rest ih =>
      intro s t
      unfold invokeEachRun
      cases hres : invokeRun kind nodeKey cb payload s with
      | err e s1 =>
          have h1 : FrameOk s s1 t := by
            have h0 := invokeRun_frame kind nodeKey cb payload s t
            rw [hres] at h0
            exact h0
          exact h1
      | ok a s1 =>
          have h1 : FrameOk s s1 t := by
            have h0 := invokeRun_frame kind nodeKey cb payload s t
            rw [hres] at h0
            exact h0
          exact h1.trans (ih s1 t)

theorem invokeEachRun_throwing_nil (kind : EventKind) (nodeKey : Ref)
    (payload : Option Nat) : ∀ (cbs : List Nat) (s : St),
    s.throwing = [] →
    ∃ s', invokeEachRun kind nodeKey payload cbs s = .ok () s' := by
  intro cbs
  induction cbs with
  | nil => intro s _; exact ⟨s, rfl⟩
  | cons cb rest ih =>
      intro s hth
      unfold invokeEachRun invokeRun
      have hmem : cb ∉ s.throwing := by simp [hth]
      simp only [hmem, if_false]
      exact ih _ hth

theorem emitNodeChangedListenersRun_frame (n : Ref) (payload : Option Nat)
    (s : St) (t : List Ref) :
    FrameOk s (emitNodeChangedListenersRun n payload s).state t :=
  invokeEachRun_frame _ _ _ _ _ _

theorem emitNodeRemovedListenersRun_frame (n : Ref) (s : St) (t : List Ref) :
    FrameOk s (emitNodeRemovedListenersRun n s).state t :=
  invokeEachRun_frame _ _ _ _ _ _

theorem upsertPendingRun_frame (n : Ref) (tx : PendingTx) (s : St)
    (t : List Ref) : FrameOk s (upsertPendingRun n tx s) t :=
  ⟨rfl, rfl, rfl, rfl, rfl, rfl, rfl, rfl, rfl, rfl, Nat.le_refl _,
    fun _ _ => rfl⟩

theorem updateReproxyRun_frame (n : Ref) (s : St) (t : List Ref)
    (hn : n ∈ t) : FrameOk s (updateReproxyRun n s).state t := by
  unfold updateReproxyRun Res.state
  cases h : alGet s.handlers n with
  | none => exact FrameOk.refl s t
  | some hh =>
      refine ⟨rfl, rfl, rfl, rfl, rfl, rfl, rfl, rfl, rfl, rfl,
        Nat.le_succ _, fun r hr => ?_⟩
      have hne : r ≠ n := fun he => hr (he ▸ hn)
      simpa using alGet_alSet_ne s.reproxy n r s.nextVersion hne

theorem updateReproxyRun_ok (n : Ref) (s : St)
    (hn : (alGet s.handlers n).isSome) :
    updateReproxyRun n s =
      .ok s.nextVersion
        { s with
          reproxy := alSet s.reproxy n s.nextVersion
          nextVersion := s.nextVersion + 1 } := by
  unfold updateReproxyRun
  cases h : alGet s.handlers n with
  | none => rw [h] at hn; simp [Option.isSome] at hn
  | some hh => rfl

/-- `getParentInternalRun` expressed through the pure parent pointer. -/
theorem getParentInternalRun_eq (r : Ref) (s : St) :
    getParentInternalRun r s =
      match parentRef s.handlers r with
      | none => .err .noHandler s
      | some po => .ok po s := by
  unfold getParentInternalRun parentRef
  cases h : alGet s.handlers r with
  | none => rfl
  | some hh =>
      simp only [Option.map_some']
      cases hp : hh.parent with
      | nullParent => simp [hp]
      | linkObj pn pName => cases pn <;> simp [hp]

/-- `walkChain` depends on the handler list only through the parent
pointers. -/
theorem walkChain_ext (hs hs' : List (Ref × NodeHandler))
    (h : ∀ r, parentRef hs' r = parentRef hs r) :
    ∀ (fuel : Nat) (r : Ref), walkChain hs' fuel r = walkChain hs fuel r := by
  intro fuel
  induction fuel with
  | zero => intro r; rfl
  | succ f ih =>
      intro r
      unfold walkChain
      rw [h r]
      cases parentRef hs r with
      | none => rfl
      | some po =>
          cases po with
          | none => rfl
          | some p => simp [ih p]

/-- `walkChain` is stable under handler changes that do not move the
parent pointer of the start node or of any node on the chain. -/
theorem walkChain_congr_visited (hs hs' : List (Ref × NodeHandler)) :
    ∀ (fuel : Nat) (r : Ref) (ch : List Ref),
    walkChain hs fuel r = some ch →
    parentRef hs' r = parentRef hs r →
    (∀ x ∈ ch, parentRef hs' x = parentRef hs x) →
    walkChain hs' fuel r = some ch := by
  intro fuel
  induction fuel with
  | zero => intro r ch hw; exact absurd hw (by simp [walkChain])
  | succ f ih =>
      intro r ch hw hr hall
      unfold walkChain at hw ⊢
      rw [hr]
      cases hpr : parentRef hs r with
      | none => rw [hpr] at hw; exact absurd hw (by simp)
      | some po =>
          rw [hpr] at hw
          cases po with
          | none => exact hw
          | some p =>
              simp only [Option.map_eq_some'] at hw
              obtain ⟨ch', hch', hcons⟩ := hw
              subst hcons
              have hp : parentRef hs' p = parentRef hs p :=
                hall p (by simp)
              have hrest : ∀ x ∈ ch', parentRef hs' x = parentRef hs x :=
                fun x hx => hall x (by simp [hx])
              simp [ih p ch' hch' hp hrest]

/-- A successful walk implies the start node has a handler. -/
theorem walkChain_isSome (hs : List (Ref × NodeHandler)) (fuel : Nat)
    (r : Ref) (ch : List Ref) (h : walkChain hs fuel r = some ch) :
    (alGet hs r).isSome := by
  cases fuel with
  | zero => exact absurd h (by simp [walkChain])
  | succ f =>
      unfold walkChain at h
      cases hpr : parentRef hs r with
      | none => rw [hpr] at h; exact absurd h (by simp)
      | some po =>
          unfold parentRef at hpr
          cases hg : alGet hs r with
          | none => rw [hg] at hpr; exact absurd hpr (by simp)
          | some hh => simp [hg]

theorem reproxyParentsLoopRun_frame (confirmed : List (Ref × List Nat))
    (top : Option Ref) : ∀ (lst : List Ref) (s : St),
    FrameOk s (reproxyParentsLoopRun confirmed top lst s).state lst := by
  intro lst
  induction lst with
  | nil => intro s; exact FrameOk.refl s []
  | cons pNode rest ih =>
      intro s
      cases hup : updateReproxyRun pNode s with
      | err e s1 =>
          have h1 : FrameOk s s1 (pNode :: rest) := by
            have h0 := updateReproxyRun_frame pNode s (pNode :: rest) (by simp)
            rw [hup] at h0
            exact h0
          simp only [reproxyParentsLoopRun, hup]
          exact h1
      | ok v s1 =>
          have h1 : FrameOk s s1 (pNode :: rest) := by
            have h0 := updateReproxyRun_frame pNode s (pNode :: rest) (by simp)
            rw [hup] at h0
            exact h0
          have hrest : ∀ s2 : St, FrameOk s2
              (if top = some pNode then Res.ok () s2
               else reproxyParentsLoopRun confirmed top rest s2).state
              (pNode :: rest) := by
            intro s2
            by_cases htop : top = some pNode
            · simp only [htop, if_true]
              exact FrameOk.refl s2 _
            · simp only [htop, if_false]
              exact (ih s2).mono fun x hx => by simp [hx]
          simp only [reproxyParentsLoopRun, hup]
          by_cases h2 : s1.skipEmit
          · simp only [h2, if_true]
            exact h1.trans (hrest s1)
          · by_cases h3 : s1.runningTransaction
            · simp only [h2, if_false, h3, if_true]
              exact (h1.trans (upsertPendingRun_frame _ _ _ _)).trans
                (hrest _)
            · simp only [h2, if_false, h3]
              cases hae : invokeEachRun .treeChanged pNode (some v)
                  ((alGet confirmed pNode).getD []) s1 with
              | err e s2 =>
                  have h4 : FrameOk s1 s2 (pNode :: rest) := by
                    have h0 := invokeEachRun_frame .treeChanged pNode (some v)
                      ((alGet confirmed pNode).getD []) s1 (pNode :: rest)
                    rw [hae] at h0
                    exact h0
                  exact h1.trans h4
              | ok u s2 =>
                  have h4 : FrameOk s1 s2 (pNode :: rest) := by
                    have h0 := invokeEachRun_frame .treeChanged pNode (some v)
                      ((alGet confirmed pNode).getD []) s1 (pNode :: rest)
                    rw [hae] at h0
                    exact h0
                  exact (h1.trans h4).trans (hrest s2)

theorem reproxyParentsLoopRun_ok (confirmed : List (Ref × List Nat))
    (top : Option Ref) : ∀ (lst : List Ref) (s : St),
    s.throwing = [] → (∀ r ∈ lst, (alGet s.handlers r).isSome) →
    ∃ s', reproxyParentsLoopRun confirmed top lst s = .ok () s' := by
  intro lst
  induction lst with
  | nil => intro s _ _; exact ⟨s, rfl⟩
  | cons pNode rest ih =>
      intro s hth hh
      set s1 : St :=
        { s with
          reproxy := alSet s.reproxy pNode s.nextVersion
          nextVersion := s.nextVersion + 1 } with hs1
      have hup : updateReproxyRun pNode s = .ok s.nextVersion s1 :=
        updateReproxyRun_ok pNode s (hh pNode (by simp))
      simp only [reproxyParentsLoopRun, hup]
      have hth1 : s1.throwing = [] := by rw [hs1]; exact hth
      have hh1 : ∀ r ∈ rest, (alGet s1.handlers r).isSome := by
        rw [hs1]; intro r hr; exact hh r (by simp [hr])
      have hrest : ∀ s2 : St, s2.throwing = [] →
          (∀ r ∈ rest, (alGet s2.handlers r).isSome) →
          ∃ s', (if top = some pNode then Res.ok () s2
                 else reproxyParentsLoopRun confirmed top rest s2) = .ok () s' := by
        intro s2 h2 h3
        by_cases htop : top = some pNode
        · simp only [htop, if_true]; exact ⟨s2, rfl⟩
        · simp only [htop, if_false]; exact ih s2 h2 h3
      by_cases h2 : s.skipEmit
      · simp only [h2, if_true]
        exact hrest s1 hth1 hh1
      · by_cases h3 : s.runningTransaction
        · simp only [h2, if_false, h3, if_true]
          refine hrest _ ?_ ?_
          · exact hth1
          · exact hh1
        · simp only [h2, if_false, h3]
          obtain ⟨s2, hs2⟩ := invokeEachRun_throwing_nil .treeChanged pNode
            (some s.nextVersion) ((alGet confirmed pNode).getD []) s1 hth1
          rw [hs2]
          have hfr : FrameOk s1 s2 [] := by
            have h0 := invokeEachRun_frame .treeChanged pNode
              (some s.nextVersion) ((alGet confirmed pNode).getD []) s1 []
            rw [hs2] at h0
            exact h0
          exact hrest s2 (hfr.throwing.trans hth1)
            (fun r hr => by rw [hfr.handlers]; exact hh1 r hr)

theorem handleNotifyRun_frame :
    ∀ (fuel : Nat) (node proxyNode changed : Ref) (top : Option Ref)
      (confirmed : List (Ref × List Nat)) (checked : List Ref) (s : St)
      (ch : List Ref),
    walkChain s.handlers fuel proxyNode = some ch →
    FrameOk s
      (handleNotifyRun fuel node proxyNode changed top confirmed checked s).state
      (checked ++ ch) := by
  intro fuel
  induction fuel with
  | zero => intro _ _ _ _ _ _ _ _ hch; exact absurd hch (by simp [walkChain])
  | succ f ih =>
      intro node proxyNode changed top confirmed checked s ch hch
      unfold walkChain at hch
      simp only [handleNotifyRun, getParentInternalRun_eq]
      cases hpr : parentRef s.handlers proxyNode with
      | none => rw [hpr] at hch; exact absurd hch (by simp)
      | some po =>
          rw [hpr] at hch
          cases po with
          | some p =>
              simp only [Option.map_eq_some'] at hch
              obtain ⟨ch', hch', hcons⟩ := hch
              subst hcons
              have h0 := ih p p changed
                (if ((alGet s.tcLs node).getD []).length > 0 then some proxyNode else top)
                (if ((alGet s.tcLs node).getD []).length > 0
                  then alSet confirmed proxyNode ((alGet s.tcLs node).getD [])
                  else confirmed)
                (checked ++ [p]) s ch' hch'
              exact h0.mono fun x hx => by
                simp only [List.mem_append, List.mem_cons,
                  List.not_mem_nil] at hx ⊢
                tauto
          | none =>
              have hch0 : ch = [] := by
                simpa using hch.symm
              subst hch0
              by_cases hc0 :
                  (if ((alGet s.tcLs node).getD []).length > 0
                    then alSet confirmed proxyNode ((alGet s.tcLs node).getD [])
                    else confirmed).length = 0
              · simp only [hc0, if_true]
                exact FrameOk.refl s _
              · simp only [hc0, if_false]
                set confirmed1 :=
                  (if ((alGet s.tcLs node).getD []).length > 0
                    then alSet confirmed proxyNode ((alGet s.tcLs node).getD [])
                    else confirmed) with hcf
                set top1 :=
                  (if ((alGet s.tcLs node).getD []).length > 0
                    then some proxyNode else top) with htp
                have hrest : ∀ s2 : St, FrameOk s2
                    (if top1 = some changed then Res.ok () s2
                     else reproxyParentsLoopRun confirmed1 top1 checked s2).state
                    (checked ++ []) := by
                  intro s2
                  by_cases htop : top1 = some changed
                  · simp only [htop, if_true]
                    exact FrameOk.refl s2 _
                  · simp only [htop, if_false]
                    exact (reproxyParentsLoopRun_frame confirmed1 top1 checked s2).mono
                      fun x hx => by simp [hx]
                by_cases h2 : s.skipEmit
                · simp only [h2, if_true]
                  exact hrest s
                · by_cases h3 : s.runningTransaction
                  · simp only [h2, if_false, h3, if_true]
                    exact (upsertPendingRun_frame _ _ _ _).trans (hrest _)
                  · simp only [h2, if_false, h3]
                    cases hae : invokeEachRun .treeChanged changed
                        (getReproxySnapshot s changed)
                        ((alGet confirmed1 changed).getD []) s with
                    | err e s2 =>
                        have h4 : FrameOk s s2 (checked ++ []) := by
                          have h0 := invokeEachRun_frame .treeChanged changed
                            (getReproxySnapshot s changed)
                            ((alGet confirmed1 changed).getD []) s (checked ++ [])
                          rw [hae] at h0
                          exact h0
                        exact h4
                    | ok u s2 =>
                        have h4 : FrameOk s s2 (checked ++ []) := by
                          have h0 := invokeEachRun_frame .treeChanged changed
                            (getReproxySnapshot s changed)
                            ((alGet confirmed1 changed).getD []) s (checked ++ [])
                          rw [hae] at h0
                          exact h0
                        exact h4.trans (hrest s2)

theorem handleNotifyRun_ok :
    ∀ (fuel : Nat) (node proxyNode changed : Ref) (top : Option Ref)
      (confirmed : List (Ref × List Nat)) (checked : List Ref) (s : St)
      (ch : List Ref),
    walkChain s.handlers fuel proxyNode = some ch →
    s.throwing = [] →
    (∀ r ∈ checked, (alGet s.handlers r).isSome) →
    ∃ s', handleNotifyRun fuel node proxyNode changed top confirmed checked s
      = .ok () s' := by
  intro fuel
  induction fuel with
  | zero => intro _ _ _ _ _ _ _ _ hch; exact absurd hch (by simp [walkChain])
  | succ f ih =>
      intro node proxyNode changed top confirmed checked s ch hch hth hck
      unfold walkChain at hch
      simp only [handleNotifyRun, getParentInternalRun_eq]
      cases hpr : parentRef s.handlers proxyNode with
      | none => rw [hpr] at hch; exact absurd hch (by simp)
      | some po =>
          rw [hpr] at hch
          cases po with
          | some p =>
              simp only [Option.map_eq_some'] at hch
              obtain ⟨ch', hch', hcons⟩ := hch
              have hpok : (alGet s.handlers p).isSome :=
                walkChain_isSome _ f p ch' hch'
              exact ih p p changed _ _ (checked ++ [p]) s ch' hch' hth
                (fun r hr => by
                  rcases List.mem_append.mp hr with hr | hr
                  · exact hck r hr
                  · simp only [List.mem_cons, List.not_mem_nil,
                      or_false] at hr
                    subst hr; exact hpok)
          | none =>
              set tcs := (alGet s.tcLs node).getD [] with htcs
              set confirmed1 :=
                (if tcs.length > 0 then alSet confirmed proxyNode tcs
                 else confirmed) with hc1
              set top1 :=
                (if tcs.length > 0 then some proxyNode else top) with ht1
              by_cases hc0 : confirmed1.length = 0
              · simp only [hc0, if_true]
                exact ⟨s, rfl⟩
              · simp only [hc0, if_false]
                have hloop : ∀ s2 : St, s2.throwing = [] →
                    (∀ r ∈ checked, (alGet s2.handlers r).isSome) →
                    ∃ s', (if top1 = some changed then Res.ok () s2
                           else reproxyParentsLoopRun confirmed1 top1 checked s2)
                      = .ok () s' := by
                  intro s2 ha hb
                  by_cases htop : top1 = some changed
                  · simp only [htop, if_true]; exact ⟨s2, rfl⟩
                  · simp only [htop, if_false]
                    exact reproxyParentsLoopRun_ok confirmed1 top1 checked s2 ha hb
                by_cases h2 : s.skipEmit
                · simp only [h2, if_true]
                  exact hloop s hth hck
                · by_cases h3 : s.runningTransaction
                  · simp only [h2, if_false, h3, if_true]
                    exact hloop _ hth hck
                  · simp only [h2, if_false, h3]
                    obtain ⟨s2, hs2⟩ := invokeEachRun_throwing_nil .treeChanged
                      changed (getReproxySnapshot s changed)
                      ((alGet confirmed1 changed).getD []) s hth
                    rw [hs2]
                    have hfr : FrameOk s s2 [] := by
                      have h0 := invokeEachRun_frame .treeChanged changed
                        (getReproxySnapshot s changed)
                        ((alGet confirmed1 changed).getD []) s []
                      rw [hs2] at h0
                      exact h0
                    exact hloop s2 (hfr.throwing.trans hth)
                      (fun r hr => by rw [hfr.handlers]; exact hck r hr)

theorem nodeChangeListenerRun_frame (fuel : Nat) (n : Ref) (v : Nat) (s : St)
    (ch : List Ref) (hch : walkChain s.handlers fuel n = some ch) :
    FrameOk s (nodeChangeListenerRun fuel n v s).state ch := by
  by_cases h2 : s.skipEmit
  · simp only [nodeChangeListenerRun, h2, if_true]
    exact handleNotifyRun_frame fuel n n n none [] [] s ch hch
  · by_cases h3 : s.runningTransaction
    · simp only [nodeChangeListenerRun, h2, if_false, h3, if_true]
      have hf1 : FrameOk s (upsertPendingRun n ⟨some v, none, false⟩ s) ch :=
        upsertPendingRun_frame _ _ _ _
      have hch1 : walkChain (upsertPendingRun n ⟨some v, none, false⟩ s).handlers
          fuel n = some ch := by
        rw [hf1.handlers]; exact hch
      exact hf1.trans
        (handleNotifyRun_frame fuel n n n none [] [] _ ch hch1)
    · simp only [nodeChangeListenerRun, h2, if_false, h3]
      cases hres : emitNodeChangedListenersRun n (some v) s with
      | err e s1 =>
          have hf1 : FrameOk s s1 ch := by
            have h0 := emitNodeChangedListenersRun_frame n (some v) s ch
            rw [hres] at h0
            exact h0
          exact hf1
      | ok u s1 =>
          have hf1 : FrameOk s s1 ch := by
            have h0 := emitNodeChangedListenersRun_frame n (some v) s ch
            rw [hres] at h0
            exact h0
          have hch1 : walkChain s1.handlers fuel n = some ch := by
            rw [hf1.handlers]; exact hch
          exact hf1.trans
            (handleNotifyRun_frame fuel n n n none [] [] s1 ch hch1)

theorem nodeChangeListenerRun_ok (fuel : Nat) (n : Ref) (v : Nat) (s : St)
    (ch : List Ref) (hch : walkChain s.handlers fuel n = some ch)
    (hth : s.throwing = []) :
    ∃ s', nodeChangeListenerRun fuel n v s = .ok () s' := by
  by_cases h2 : s.skipEmit
  · simp only [nodeChangeListenerRun, h2, if_true]
    exact handleNotifyRun_ok fuel n n n none [] [] s ch hch hth
      (by intro r hr; exact absurd hr (List.not_mem_nil r))
  · by_cases h3 : s.runningTransaction
    · simp only [nodeChangeListenerRun, h2, if_false, h3, if_true]
      have hf1 : FrameOk s (upsertPendingRun n ⟨some v, none, false⟩ s) ch :=
        upsertPendingRun_frame _ _ _ _
      have hch1 : walkChain (upsertPendingRun n ⟨some v, none, false⟩ s).handlers
          fuel n = some ch := by
        rw [hf1.handlers]; exact hch
      exact handleNotifyRun_ok fuel n n n none [] [] _ ch hch1
        (hf1.throwing.trans hth)
        (by intro r hr; exact absurd hr (List.not_mem_nil r))
    · simp only [nodeChangeListenerRun, h2, if_false, h3]
      obtain ⟨s1, hs1⟩ := invokeEachRun_throwing_nil .nodeChanged n (some v)
        ((alGet s.ncLs n).getD []) s hth
      have hres : emitNodeChangedListenersRun n (some v) s = .ok () s1 := hs1
      rw [hres]
      have hf1 : FrameOk s s1 ch := by
        have h0 := emitNodeChangedListenersRun_frame n (some v) s ch
        rw [hres] at h0
        exact h0
      have hch1 : walkChain s1.handlers fuel n = some ch := by
        rw [hf1.handlers]; exact hch
      exact handleNotifyRun_ok fuel n n n none [] [] s1 ch hch1
        (hf1.throwing.trans hth)
        (by intro r hr; exact absurd hr (List.not_mem_nil r))

theorem emitterNodeChangedRun_frame (fuel : Nat) (n : Ref) (v : Nat) (s : St)
    (ch : List Ref) (hch : walkChain s.handlers fuel n = some ch) :
    FrameOk s (emitterNodeChangedRun fuel n v s).state ch := by
  unfold emitterNodeChangedRun
  by_cases hl : s.listening
  · simp only [hl, if_true]
    exact nodeChangeListenerRun_frame fuel n v s ch hch
  · simp only [hl, if_false]
    exact FrameOk.refl s ch

theorem emitterNodeChangedRun_ok (fuel : Nat) (n : Ref) (v : Nat) (s : St)
    (ch : List Ref) (hch : walkChain s.handlers fuel n = some ch)
    (hth : s.throwing = []) :
    ∃ s', emitterNodeChangedRun fuel n v s = .ok () s' := by
  unfold emitterNodeChangedRun
  by_cases hl : s.listening
  · simp only [hl, if_true]
    exact nodeChangeListenerRun_ok fuel n v s ch hch hth
  · simp only [hl, if_false]
    exact ⟨s, rfl⟩

theorem nodeRemovedListenerRun_frame (n : Ref) (s : St) (t : List Ref) :
    FrameOk s (nodeRemovedListenerRun n s).state t := by
  by_cases h2 : s.skipEmit
  · simp only [nodeRemovedListenerRun, h2, if_true]
    exact FrameOk.refl s t
  · by_cases h3 : s.runningTransaction
    · simp only [nodeRemovedListenerRun, h2, if_false, h3, if_true]
      exact upsertPendingRun_frame _ _ _ _
    · simp only [nodeRemovedListenerRun, h2, if_false, h3]
      exact emitNodeRemovedListenersRun_frame n s t

theorem nodeRemovedListenerRun_ok (n : Ref) (s : St) (hth : s.throwing = []) :
    ∃ s', nodeRemovedListenerRun n s = .ok () s' := by
  by_cases h2 : s.skipEmit
  · simp only [nodeRemovedListenerRun, h2, if_true]
    exact ⟨s, rfl⟩
  · by_cases h3 : s.runningTransaction
    · simp only [nodeRemovedListenerRun, h2, if_false, h3, if_true]
      exact ⟨_, rfl⟩
    · simp only [nodeRemovedListenerRun, h2, if_false, h3]
      exact invokeEachRun_throwing_nil .nodeRemoved n none _ s hth

theorem emitterNodeRemovedRun_frame (n : Ref) (s : St) (t : List Ref) :
    FrameOk s (emitterNodeRemovedRun n s).state t := by
  unfold emitterNodeRemovedRun
  by_cases hl : s.listening
  · simp only [hl, if_true]
    exact nodeRemovedListenerRun_frame n s t
  · simp only [hl, if_false]
    exact FrameOk.refl s t

theorem emitterNodeRemovedRun_ok (n : Ref) (s : St) (hth : s.throwing = []) :
    ∃ s', emitterNodeRemovedRun n s = .ok () s' := by
  unfold emitterNodeRemovedRun
  by_cases hl : s.listening
  · simp only [hl, if_true]
    exact nodeRemovedListenerRun_ok n s hth
  · simp only [hl, if_false]
    exact ⟨s, rfl⟩

theorem finishAssignRun_frame (fuel : Nat) (n : Ref) (nodeRemoved : JSValue)
    (s : St) (ch : List Ref)
    (hch : walkChain s.handlers fuel n = some ch) :
    FrameOk s (finishAssignRun fuel n nodeRemoved s).state (n :: ch) := by
  by_cases h1 : s.skipReproxy
  · simp only [finishAssignRun, h1, if_true]
    exact FrameOk.refl s _
  · simp only [finishAssignRun, h1, Bool.false_eq_true, if_false]
    have htail : ∀ (s1 : St) (v : Nat),
        walkChain s1.handlers fuel n = some ch →
        FrameOk s1
          (match emitterNodeChangedRun fuel n v s1 with
            | .err e s1' => (.err e s1' : Res Bool)
            | .ok _ s2 =>
                if nodeRemoved.truthy && !s2.skipEmit then
                  match emitterNodeRemovedRun n s2 with
                  | .err e s3 => .err e s3
                  | .ok _ s3 => .ok true s3
                else .ok true s2).state (n :: ch) := by
      intro s1 v hch1
      cases hem : emitterNodeChangedRun fuel n v s1 with
      | err e s2 =>
          have hf2 : FrameOk s1 s2 (n :: ch) := by
            have h0 := (emitterNodeChangedRun_frame fuel n v s1 ch hch1).mono
              (fun x hx => List.mem_cons_of_mem n hx)
            rw [hem] at h0
            exact h0
          exact hf2
      | ok u s2 =>
          have hf2 : FrameOk s1 s2 (n :: ch) := by
            have h0 := (emitterNodeChangedRun_frame fuel n v s1 ch hch1).mono
              (fun x hx => List.mem_cons_of_mem n hx)
            rw [hem] at h0
            exact h0
          by_cases hnr : nodeRemoved.truthy && !s2.skipEmit
          · simp only [hnr, if_true]
            cases hrem : emitterNodeRemovedRun n s2 with
            | err e s3 =>
                have hf3 : FrameOk s2 s3 (n :: ch) := by
                  have h0 := emitterNodeRemovedRun_frame n s2 (n :: ch)
                  rw [hrem] at h0
                  exact h0
                exact hf2.trans hf3
            | ok w s3 =>
                have hf3 : FrameOk s2 s3 (n :: ch) := by
                  have h0 := emitterNodeRemovedRun_frame n s2 (n :: ch)
                  rw [hrem] at h0
                  exact h0
                exact hf2.trans hf3
          · simp only [hnr, Bool.false_eq_true, if_false]
            exact hf2
    cases hup : updateReproxyRun n s with
    | err e s1 =>
        have h0 := updateReproxyRun_frame n s (n :: ch) (by simp)
        rw [hup] at h0
        exact h0
    | ok v s1 =>
        have hf1 : FrameOk s s1 (n :: ch) := by
          have h0 := updateReproxyRun_frame n s (n :: ch) (by simp)
          rw [hup] at h0
          exact h0
        have hch1 : walkChain s1.handlers fuel n = some ch := by
          rw [hf1.handlers]; exact hch
        exact hf1.trans (htail s1 v hch1)

theorem finishAssignRun_commit (fuel : Nat) (n : Ref) (nodeRemoved : JSValue)
    (s : St) (ch : List Ref)
    (hch : walkChain s.handlers fuel n = some ch)
    (hsk : s.skipReproxy = false)
    (hh : (alGet s.handlers n).isSome) :
    (n ∉ ch → alGet (finishAssignRun fuel n nodeRemoved s).state.reproxy n
        = some s.nextVersion) ∧
    (s.throwing = [] →
      ∃ s', finishAssignRun fuel n nodeRemoved s = .ok true s') := by
  set s1 : St :=
    { s with
      reproxy := alSet s.reproxy n s.nextVersion
      nextVersion := s.nextVersion + 1 } with hs1
  have hup : updateReproxyRun n s = .ok s.nextVersion s1 :=
    updateReproxyRun_ok n s hh
  simp only [finishAssignRun, hsk, Bool.false_eq_true, if_false, hup]
  have hch1 : walkChain s1.handlers fuel n = some ch := by
    rw [hs1]; exact hch
  have hv1 : alGet s1.reproxy n = some s.nextVersion := by
    rw [hs1]; exact alGet_alSet_self s.reproxy n s.nextVersion
  cases hem : emitterNodeChangedRun fuel n s.nextVersion s1 with
  | err e s2 =>
      have hfr : FrameOk s1 s2 ch := by
        have h0 := emitterNodeChangedRun_frame fuel n s.nextVersion s1 ch hch1
        rw [hem] at h0
        exact h0
      constructor
      · intro hn
        exact (hfr.reproxy n hn).trans hv1
      · intro hth
        have hth1 : s1.throwing = [] := by rw [hs1]; exact hth
        obtain ⟨s', h'⟩ :=
          emitterNodeChangedRun_ok fuel n s.nextVersion s1 ch hch1 hth1
        rw [hem] at h'
        exact absurd h' (by simp)
  | ok u s2 =>
      have hfr : FrameOk s1 s2 ch := by
        have h0 := emitterNodeChangedRun_frame fuel n s.nextVersion s1 ch hch1
        rw [hem] at h0
        exact h0
      by_cases hnr : nodeRemoved.truthy && !s2.skipEmit
      · simp only [hnr, if_true]
        cases hrem : emitterNodeRemovedRun n s2 with
        | err e s3 =>
            have hfr3 : FrameOk s2 s3 ch := by
              have h0 := emitterNodeRemovedRun_frame n s2 ch
              rw [hrem] at h0
              exact h0
            constructor
            · intro hn
              exact ((hfr3.reproxy n hn).trans (hfr.reproxy n hn)).trans hv1
            · intro hth
              have hth2 : s2.throwing = [] := by
                rw [hfr.throwing, hs1]; exact hth
              obtain ⟨s', h'⟩ := emitterNodeRemovedRun_ok n s2 hth2
              rw [hrem] at h'
              exact absurd h' (by simp)
        | ok w s3 =>
            have hfr3 : FrameOk s2 s3 ch := by
              have h0 := emitterNodeRemovedRun_frame n s2 ch
              rw [hrem] at h0
              exact h0
            constructor
            · intro hn
              exact ((hfr3.reproxy n hn).trans (hfr.reproxy n hn)).trans hv1
            · intro _
              exact ⟨s3, rfl⟩
      · simp only [hnr, Bool.false_eq_true, if_false]
        constructor
        · intro hn
          exact (hfr.reproxy n hn).trans hv1
        · intro _
          exact ⟨s2, rfl⟩

/-! ## Concrete scenario states -/

/-- A freshly attached root: one node `0` with a single primitive field
`count` (the state right after `Retree.use({ count: 0 })` followed by a
first `Retree.on` subscription, which set `listening`). -/
def counterState : St :=
  { handlers := [(0, ⟨[("count", .vPrim 0)], [], .nullParent⟩)]
    rawObjs := []
    reproxy := [(0, 0)]
    nextVersion := 1
    ncLs := []
    tcLs := []
    nrLs := []
    skipEmit := false
    skipReproxy := false
    runningTransaction := false
    pending := []
    listening := true
    throwing := []
    log := [] }

/-- `counterState` with a `nodeChanged` listener (callback `1`) and a
`treeChanged` listener (callback `2`), both on node `0`. -/
def c1State : St := { counterState with ncLs := [(0, [1])], tcLs := [(0, [2])] }

/-- `c1State` with only the `nodeChanged` listener. -/
def c1StateOnlyNode : St := { counterState with ncLs := [(0, [1])] }

/-- The transaction body of the coalescing scenario: mutate the same
field of node `0` twice (`counter.count = 1; counter.count = 2`). -/
def c1Body : St → Res Unit := fun s =>
  match assignRun 4 0 "count" (.vPrim 1) s with
  | .err e s1 => .err e s1
  | .ok _ s1 =>
      match assignRun 4 0 "count" (.vPrim 2) s1 with
      | .err e s2 => .err e s2
      | .ok _ s2 => .ok () s2

/-- A transaction body that raises. -/
def throwingBody : St → Res Unit := fun s => .err .userErr s

/-! ## Claim theorems -/

/-- C1: mutating a node k>1 times inside one `runTransaction` must invoke
its `nodeChanged` listener exactly once at the flush.  With only a
`nodeChanged` listener this holds (first conjunct), but when the same
node also has a `treeChanged` listener the flush invokes the
`nodeChanged` listener zero times: `upsertPendingTransaction` stores the
upsert argument instead of the merged record, so the pending
`emitNodeChanged` is replaced by the later `emitTreeChanged` upsert.
The per-kind count never exceeds one (last conjunct). -/
theorem claim1_transaction_coalescing_drops_nodeChanged :
    countInvocations (runTransactionRun c1Body c1StateOnlyNode).state.log
        .nodeChanged 1 = 1 ∧
    countInvocations (runTransactionRun c1Body c1State).state.log
        .nodeChanged 1 = 0 ∧
    countInvocations (runTransactionRun c1Body c1State).state.log
        .treeChanged 2 = 1 := ⟨rfl, rfl, rfl⟩

/-- C3: the suppression flags must be reset even when the transaction
body throws.  `runSilent` and `runTransaction` have no `try`/`finally`,
so after a throwing body `skipEmit`/`skipReproxy` (resp.
`runningTransaction`) are left `true` and the exception propagates. -/
theorem claim3_flags_left_set_when_body_throws :
    (runSilentRun throwingBody true counterState).state.skipEmit = true ∧
    (runSilentRun throwingBody true counterState).state.skipReproxy = true ∧
    (runTransactionRun throwingBody counterState).state.runningTransaction
      = true ∧
    runSilentRun throwingBody true counterState
      = .err .userErr
        { counterState with skipEmit := true, skipReproxy := true } :=
  ⟨rfl, rfl, rfl, rfl⟩

/-- C4: assigning a property the value identity-equal to the value stored
on the raw target is a complete no-op: the `set` trap's
`prev !== newValue` guard returns `true` immediately, so no listener
fires, no snapshot is minted, and the state is untouched. -/
theorem claim4_idempotent_write_noop (fuel : Nat) (n : Ref) (prop : String)
    (v : JSValue) (s : St) (h : rawField s n prop = v) :
    assignRun fuel n prop v s = .ok true s := by
  unfold assignRun
  simp [h]

theorem claim4_idempotent_write_noop_witness :
    rawField c1State 0 "count" = .vPrim 0 ∧
    assignRun 4 0 "count" (.vPrim 0) c1State = .ok true c1State :=
  ⟨rfl, claim4_idempotent_write_noop 4 0 "count" (.vPrim 0) c1State rfl⟩

/-- C6: a derived node with dependency comparisons `[f(X)]` notifies
exactly when the re-evaluated comparison differs from the recorded one
(and records the new value), and a dependency without comparisons
notifies on every change of its target. -/
theorem claim6_reactive_dependency_law :
    (∀ p l : Nat, reactiveDependentStep (some [p]) (some [l])
        = .ok (l != p, some [l])) ∧
    (∀ latest : Option (List Nat),
      reactiveDependentStep none latest = .ok (true, latest)) := by
  constructor
  · intro p l
    by_cases h : l = p
    · subst h
      simp [reactiveDependentStep, comparisonsChanged]
    · have hb : (l != p) = true := by simp [bne_iff_ne, h]
      simp [reactiveDependentStep, comparisonsChanged, hb]
  · intro latest
    rfl

theorem lsMap_setLsMap (s : St) (kind : EventKind)
    (m : List (Ref × List Nat)) : (s.setLsMap kind m).lsMap kind = m := by
  cases kind <;> rfl

theorem lsMap_startListening (s : St) (kind : EventKind) :
    (startListeningSt s).lsMap kind = s.lsMap kind := by
  cases kind <;> rfl

/-- `Retree.on` always reaches the registration step: the `!unproxiedNode`
guard never fires. -/
theorem onRun_eq (r : Ref) (isProxy : Bool) (kind : EventKind) (cb : Nat)
    (s : St) :
    onRun r isProxy kind cb s =
      .ok () ((if s.listening then s else startListeningSt s).setLsMap kind
        (alSet (s.lsMap kind) r
          (((alGet (s.lsMap kind) r).getD []) ++ [cb]))) := by
  unfold onRun getUnproxiedNodeModel
  by_cases hl : s.listening
  · simp [hl]
  · simp [hl, lsMap_startListening]

/-- C7: the spec requires `Retree.on` on a value never attached to a tree
to throw (`NotAttachedError`); in the source the guard is dead because
`getUnproxiedNode` returns its argument when it is not a proxy, so the
listener is silently registered, keyed by the raw value itself. -/
theorem claim7_on_unattached_registers_silently (s : St) (r : Ref)
    (kind : EventKind) (cb : Nat) (_hra : alGet s.handlers r = none) :
    ∃ s', onRun r false kind cb s = .ok () s' ∧
      alGet (s'.lsMap kind) r
        = some (((alGet (s.lsMap kind) r).getD []) ++ [cb]) := by
  refine ⟨_, onRun_eq r false kind cb s, ?_⟩
  rw [lsMap_setLsMap]
  exact alGet_alSet_self _ _ _

theorem claim7_on_unattached_registers_silently_witness :
    ∃ s', onRun 99 false .nodeChanged 5 counterState = .ok () s' ∧
      alGet (s'.lsMap .nodeChanged) 99
        = some (((alGet (counterState.lsMap .nodeChanged) 99).getD [])
            ++ [5]) :=
  claim7_on_unattached_registers_silently counterState 99 .nodeChanged 5 rfl

/-- What `handleNodeRemoved` may change: at most the parent link of the
node read out of the vacated slot; raw fields, identities, registries,
flags, pending records and the log are untouched. -/
structure RemovalFrame (s s1 : St) (n : Ref) (prop : String) : Prop where
  rawObjs : s1.rawObjs = s.rawObjs
  reproxy : s1.reproxy = s.reproxy
  nextVersion : s1.nextVersion = s.nextVersion
  ncLs : s1.ncLs = s.ncLs
  tcLs : s1.tcLs = s.tcLs
  nrLs : s1.nrLs = s.nrLs
  skipEmit : s1.skipEmit = s.skipEmit
  skipReproxy : s1.skipReproxy = s.skipReproxy
  runningTransaction : s1.runningTransaction = s.runningTransaction
  pending : s1.pending = s.pending
  listening : s1.listening = s.listening
  throwing : s1.throwing = s.throwing
  log : s1.log = s.log
  rawOf : ∀ m, (alGet s1.handlers m).map NodeHandler.raw
      = (alGet s.handlers m).map NodeHandler.raw
  parentOf : ∀ m, (∀ b : Bool, proxyGet s n prop ≠ .vRef m b) →
      alGet s1.handlers m = alGet s.handlers m

theorem RemovalFrame.rfl (s : St) (n : Ref) (prop : String) :
    RemovalFrame s s n prop :=
  ⟨Eq.refl _, Eq.refl _, Eq.refl _, Eq.refl _, Eq.refl _, Eq.refl _,
    Eq.refl _, Eq.refl _, Eq.refl _, Eq.refl _, Eq.refl _, Eq.refl _,
    Eq.refl _, fun _ => Eq.refl _, fun _ _ => Eq.refl _⟩

/-- `handleNodeRemoved` never throws when the vacated slot does not read
as `null`, and obeys the removal frame. -/
theorem handleNodeRemovedRun_spec (n : Ref) (prop : String) (s : St)
    (h : proxyGet s n prop ≠ .vNull) :
    ∃ v s1, handleNodeRemovedRun n prop s = .ok v s1 ∧
      RemovalFrame s s1 n prop := by
  have hsub : ∀ (c : Ref) (b : Bool), proxyGet s n prop = .vRef c b →
      ∃ v s1,
        (match alGet s.handlers c with
          | none => Res.ok (JSValue.vRef c b) s
          | some chd =>
            match chd.parent with
            | ParentLink.nullParent => Res.ok .vUndefined s
            | ParentLink.linkObj _ pName =>
              if pName ≠ some prop then Res.ok .vUndefined s
              else Res.ok (JSValue.vRef c b)
                (s.setParent c (.linkObj none none)))
          = Res.ok v s1 ∧ RemovalFrame s s1 n prop := by
    intro c b hv
    cases hc : alGet s.handlers c with
    | none => exact ⟨_, s, Eq.refl _, RemovalFrame.rfl s n prop⟩
    | some chd =>
        have h2 : ∃ v s1,
            (match chd.parent with
              | ParentLink.nullParent => Res.ok JSValue.vUndefined s
              | ParentLink.linkObj _ pName =>
                if pName ≠ some prop then Res.ok JSValue.vUndefined s
                else Res.ok (JSValue.vRef c b)
                  (s.setParent c (.linkObj none none)))
              = Res.ok v s1 ∧ RemovalFrame s s1 n prop := by
          cases hcp : chd.parent with
          | nullParent => exact ⟨_, s, Eq.refl _, RemovalFrame.rfl s n prop⟩
          | linkObj pn pName =>
              have h3 : ∃ v s1,
                  (if pName ≠ some prop then Res.ok JSValue.vUndefined s
                   else Res.ok (JSValue.vRef c b)
                     (s.setParent c (.linkObj none none)))
                    = Res.ok v s1 ∧ RemovalFrame s s1 n prop := by
                by_cases hp : pName ≠ some prop
                · rw [if_pos hp]
                  exact ⟨_, s, Eq.refl _, RemovalFrame.rfl s n prop⟩
                · rw [if_neg hp]
                  refine ⟨_, _, Eq.refl _, ?_⟩
                  unfold St.setParent
                  rw [hc]
                  refine ⟨Eq.refl _, Eq.refl _, Eq.refl _, Eq.refl _,
                    Eq.refl _, Eq.refl _, Eq.refl _, Eq.refl _, Eq.refl _,
                    Eq.refl _, Eq.refl _, Eq.refl _, Eq.refl _, ?_, ?_⟩
                  · intro m
                    by_cases hm : m = c
                    · subst hm
                      rw [alGet_alSet_self, hc]
                      rfl
                    · rw [alGet_alSet_ne _ _ _ _ hm]
                  · intro m hmne
                    have hne : m ≠ c := fun he =>
                      hmne b (by rw [hv, he])
                    exact alGet_alSet_ne _ _ _ _ hne
              exact h3
        exact h2
  unfold handleNodeRemovedRun
  cases hv : proxyGet s n prop with
  | vNull => exact absurd hv h
  | vUndefined => exact ⟨_, s, Eq.refl _, RemovalFrame.rfl s n prop⟩
  | vPrim k => exact ⟨_, s, Eq.refl _, RemovalFrame.rfl s n prop⟩
  | vRef c b => exact hsub c b hv

/-- When the vacated slot reads as a primitive or `undefined`,
`handleNodeRemoved` returns it and changes nothing. -/
theorem handleNodeRemovedRun_id (n : Ref) (prop : String) (s : St)
    (h : proxyGet s n prop = .vUndefined ∨ ∃ k, proxyGet s n prop = .vPrim k) :
    handleNodeRemovedRun n prop s = .ok (proxyGet s n prop) s := by
  unfold handleNodeRemovedRun
  rcases h with h | ⟨k, h⟩ <;> rw [h]

/-- Updating only the raw fields of one handler moves no parent pointer. -/
theorem parentRef_setRaw (hs : List (Ref × NodeHandler)) (n : Ref)
    (hnd : NodeHandler) (raw' : List (String × JSValue))
    (hhe : alGet hs n = some hnd) (m : Ref) :
    parentRef (alSet hs n { hnd with raw := raw' }) m = parentRef hs m := by
  unfold parentRef
  by_cases hm : m = n
  · subst hm
    rw [alGet_alSet_self, hhe]
    rfl
  · rw [alGet_alSet_ne _ _ _ _ hm]

/-- The reproxy/emit tail does nothing when `skipReproxy` is set. -/
theorem finishAssignRun_skip (fuel : Nat) (n : Ref) (nodeRemoved : JSValue)
    (s : St) (hsk : s.skipReproxy = true) :
    finishAssignRun fuel n nodeRemoved s = .ok true s := by
  simp [finishAssignRun, hsk]

/-- The raw-field read is determined by the `rawOf` projection. -/
theorem rawField_congr (s s1 : St) (n : Ref) (prop : String)
    (h : (alGet s1.handlers n).map NodeHandler.raw
      = (alGet s.handlers n).map NodeHandler.raw) :
    rawField s1 n prop = rawField s n prop := by
  unfold rawField
  cases h1 : alGet s1.handlers n with
  | none =>
      rw [h1] at h
      cases h0 : alGet s.handlers n with
      | none => rfl
      | some hh => rw [h0] at h; exact absurd h (by simp)
  | some hh1 =>
      rw [h1] at h
      cases h0 : alGet s.handlers n with
      | none => rw [h0] at h; exact absurd h (by simp)
      | some hh0 =>
          rw [h0] at h
          simp only [Option.map_some', Option.some_inj] at h
          show (alGet hh1.raw prop).getD JSValue.vUndefined
            = (alGet hh0.raw prop).getD JSValue.vUndefined
          rw [h]

/-- `forEach` delivery when a callback throws: every callback before the
first throwing one runs, the throwing one runs and raises, everything
after it is never invoked. -/
theorem invokeEachRun_first_throw (kind : EventKind) (nodeKey : Ref)
    (payload : Option Nat) :
    ∀ (pre : List Nat) (t : Nat) (post : List Nat) (s : St),
    (∀ x ∈ pre, x ∉ s.throwing) → t ∈ s.throwing →
    invokeEachRun kind nodeKey payload (pre ++ t :: post) s =
      .err (.listenerThrew t)
        { s with log := s.log
            ++ (pre ++ [t]).map fun cb => ⟨kind, nodeKey, cb, payload⟩ } := by
  intro pre
  induction pre with
  | nil =>
      intro t post s _ ht
      simp [invokeEachRun, invokeRun, ht]
  | cons a rest ih =>
      intro t post s hpre ht
      have ha : a ∉ s.throwing := hpre a (by simp)
      have hstep : invokeRun kind nodeKey a payload s
          = .ok () { s with log := s.log ++ [⟨kind, nodeKey, a, payload⟩] } := by
        simp [invokeRun, ha]
      simp only [List.cons_append, invokeEachRun, hstep, List.append_eq]
      rw [ih t post { s with log := s.log ++ [⟨kind, nodeKey, a, payload⟩] }
        (fun x hx => hpre x (by simp [hx])) ht]
      simp [List.append_assoc]

/-- `counterState` with two `nodeChanged` listeners (callbacks `1`, `2`)
on node `0`. -/
def c9State : St := { counterState with ncLs := [(0, [1, 2])] }

/-- `c9State` with callback `1` throwing when invoked. -/
def c8State : St := { counterState with ncLs := [(0, [1, 2])], throwing := [1] }

/-- C8 counterexample: with two `nodeChanged` listeners where the first
throws, a mutation invokes the first listener (which raises), never
invokes the second, and propagates the exception — refuting the claim
that the remaining same-tier listeners still run. -/
theorem claim8_counterexample_sibling_listener_starved :
    (∃ s', assignRun 4 0 "count" (.vPrim 1) c8State
        = .err (.listenerThrew 1) s') ∧
    countInvocations (assignRun 4 0 "count" (.vPrim 1) c8State).state.log
        .nodeChanged 1 = 1 ∧
    countInvocations (assignRun 4 0 "count" (.vPrim 1) c8State).state.log
        .nodeChanged 2 = 0 :=
  ⟨⟨_, rfl⟩, rfl, rfl⟩

/-- C8 (amended): when a listener callback throws during `nodeChanged`
notification, the exception propagates to the caller of the mutation,
the callbacks registered before it have run, and the callbacks
registered after it in the same list are never invoked (the `forEach`
iteration aborts). -/
theorem claim8_amended_throw_aborts_same_tier_iteration
    (fuel : Nat) (n : Ref) (prop : String) (k : Nat) (s : St)
    (hnd : NodeHandler) (pre post : List Nat) (t : Nat)
    (hhe : alGet s.handlers n = some hnd)
    (hprev : rawField s n prop ≠ .vPrim k)
    (hsk : s.skipReproxy = false) (hse : s.skipEmit = false)
    (htr : s.runningTransaction = false) (hl : s.listening = true)
    (hls : alGet s.ncLs n = some (pre ++ t :: post))
    (hpre : ∀ x ∈ pre, x ∉ s.throwing) (ht : t ∈ s.throwing) :
    ∃ s', assignRun fuel n prop (.vPrim k) s = .err (.listenerThrew t) s' ∧
      s'.log = s.log ++ (pre ++ [t]).map
        (fun cb => ⟨.nodeChanged, n, cb, some s.nextVersion⟩) := by
  have hbody : assignRun fuel n prop (.vPrim k) s
      = finishAssignRun fuel n .vUndefined (s.setRawField n prop (.vPrim k)) := by
    unfold assignRun
    rw [if_neg hprev]
  set s1 : St :=
    { s with handlers :=
        alSet s.handlers n { hnd with raw := alSet hnd.raw prop (.vPrim k) } }
    with hs1
  have hsraw : s.setRawField n prop (.vPrim k) = s1 := by
    unfold St.setRawField
    rw [hhe]
  rw [hsraw] at hbody
  have hh1 : (alGet s1.handlers n).isSome := by
    rw [hs1]
    simp [alGet_alSet_self]
  set s2 : St :=
    { s1 with
      reproxy := alSet s1.reproxy n s1.nextVersion
      nextVersion := s1.nextVersion + 1 } with hs2
  have hup : updateReproxyRun n s1 = .ok s1.nextVersion s2 :=
    updateReproxyRun_ok n s1 hh1
  have hdeliver : invokeEachRun .nodeChanged n (some s1.nextVersion)
      (pre ++ t :: post) s2
      = .err (.listenerThrew t)
        { s2 with log := s2.log
            ++ List.map (fun cb => (⟨.nodeChanged, n, cb, some s1.nextVersion⟩ : Notification)) (pre ++ [t]) } := by
    refine invokeEachRun_first_throw .nodeChanged n (some s1.nextVersion)
      pre t post s2 ?_ ?_
    · rw [hs2, hs1]; exact hpre
    · rw [hs2, hs1]; exact ht
  have hemit : emitNodeChangedListenersRun n (some s1.nextVersion) s2
      = .err (.listenerThrew t)
        { s2 with log := s2.log
            ++ List.map (fun cb => (⟨.nodeChanged, n, cb, some s1.nextVersion⟩ : Notification)) (pre ++ [t]) } := by
    unfold emitNodeChangedListenersRun
    have hls2 : alGet s2.ncLs n = some (pre ++ t :: post) := by
      rw [hs2, hs1]; exact hls
    rw [hls2]
    exact hdeliver
  have hlis : nodeChangeListenerRun fuel n s1.nextVersion s2
      = .err (.listenerThrew t)
        { s2 with log := s2.log
            ++ List.map (fun cb => (⟨.nodeChanged, n, cb, some s1.nextVersion⟩ : Notification)) (pre ++ [t]) } := by
    simp only [nodeChangeListenerRun, hse, htr, Bool.false_eq_true,
      if_false, hemit]
  have hfin : finishAssignRun fuel n .vUndefined s1
      = .err (.listenerThrew t)
        { s2 with log := s2.log
            ++ List.map (fun cb => (⟨.nodeChanged, n, cb, some s1.nextVersion⟩ : Notification)) (pre ++ [t]) } := by
    simp only [finishAssignRun, hsk, Bool.false_eq_true, if_false, hup,
      emitterNodeChangedRun, hl, if_true, hlis]
  refine ⟨_, hbody.trans hfin, ?_⟩
  rw [hs2, hs1]

theorem claim8_amended_throw_aborts_same_tier_iteration_witness :
    ∃ s', assignRun 4 0 "count" (.vPrim 1) c8State
        = .err (.listenerThrew 1) s' ∧
      s'.log = c8State.log ++ ([] ++ [1]).map
        (fun cb => ⟨.nodeChanged, 0, cb, some c8State.nextVersion⟩) :=
  claim8_amended_throw_aborts_same_tier_iteration 4 0 "count" 1 c8State
    ⟨[("count", .vPrim 0)], [], .nullParent⟩ [] [2] 1
    rfl (by decide) rfl rfl rfl rfl rfl (by decide) (by decide)

theorem alGet_mem {α : Type} [DecidableEq α] {β : Type} :
    ∀ (l : List (α × β)) (k : α) (v : β), alGet l k = some v → (k, v) ∈ l := by
  intro l
  induction l with
  | nil => intro k v h; exact absurd h (by simp [alGet])
  | cons hd tl ih =>
      intro k v h
      unfold alGet at h
      by_cases hk : hd.1 = k
      · rw [if_pos hk] at h
        simp only [Option.some_inj] at h
        subst hk
        subst h
        simp
      · rw [if_neg hk] at h
        exact List.mem_cons_of_mem hd (ih k v h)

/-- C2: after a committed leaf mutation on a wrapped node `n`, the
snapshot recorded for `n` differs from the one before the mutation, and
the snapshot of every node that is neither `n` nor on the chain of
ancestors of `n` is unchanged.  The hypotheses say that `n` is a wrapped
node whose ancestor chain is acyclic and reaches a root, that the write
actually changes the stored value, that no `skipReproxy` suppression is
active, and that every recorded snapshot version is below the allocation
counter (an invariant of every state the engine produces). -/
theorem claim2_snapshot_equality_law
    (fuel : Nat) (n : Ref) (prop : String) (k : Nat) (s : St)
    (hnd : NodeHandler) (ch : List Ref)
    (hhe : alGet s.handlers n = some hnd)
    (hprev : rawField s n prop ≠ .vPrim k)
    (hsk : s.skipReproxy = false)
    (hch : walkChain s.handlers fuel n = some ch)
    (hn : n ∉ ch)
    (hvb : s.reproxy.all (fun p => decide (p.2 < s.nextVersion)) = true) :
    alGet (assignRun fuel n prop (.vPrim k) s).state.reproxy n
        ≠ alGet s.reproxy n ∧
    (∀ r, r ≠ n → r ∉ ch →
      alGet (assignRun fuel n prop (.vPrim k) s).state.reproxy r
        = alGet s.reproxy r) := by
  have hbody : assignRun fuel n prop (.vPrim k) s
      = finishAssignRun fuel n .vUndefined (s.setRawField n prop (.vPrim k)) := by
    unfold assignRun
    rw [if_neg hprev]
  set s1 : St :=
    { s with handlers :=
        alSet s.handlers n { hnd with raw := alSet hnd.raw prop (.vPrim k) } }
    with hs1
  have hsraw : s.setRawField n prop (.vPrim k) = s1 := by
    unfold St.setRawField
    rw [hhe]
  rw [hsraw] at hbody
  have hch1 : walkChain s1.handlers fuel n = some ch := by
    rw [hs1]
    exact (walkChain_ext s.handlers _
      (fun m => parentRef_setRaw s.handlers n hnd _ hhe m) fuel n).trans hch
  have hh1 : (alGet s1.handlers n).isSome := by
    rw [hs1]
    simp [alGet_alSet_self]
  have hsk1 : s1.skipReproxy = false := by rw [hs1]; exact hsk
  have hcommit := finishAssignRun_commit fuel n .vUndefined s1 ch hch1 hsk1 hh1
  have hframe := finishAssignRun_frame fuel n .vUndefined s1 ch hch1
  constructor
  · rw [hbody, hcommit.1 hn]
    have hnv : s1.nextVersion = s.nextVersion := by rw [hs1]
    rw [hnv]
    cases hr : alGet s.reproxy n with
    | none => simp
    | some w =>
        have hmem := alGet_mem s.reproxy n w hr
        have hlt : w < s.nextVersion := by
          have := (List.all_eq_true.mp hvb) (n, w) hmem
          simpa using this
        simp only [Ne, Option.some_inj]
        omega
  · intro r hrn hrch
    rw [hbody]
    have h1 := hframe.reproxy r (by
      intro hmem
      rcases List.mem_cons.mp hmem with h | h
      · exact hrn h
      · exact hrch h)
    rw [h1, hs1]

/-- A three-node tree: root `0` with children `1` (at `"kid"`) and `2`
(at `"sib"`), and a `treeChanged` listener (callback `7`) on the root. -/
def familyState : St :=
  { handlers :=
      [(0, ⟨[("kid", .vRef 1 true), ("sib", .vRef 2 true)],
            [("kid", 1), ("sib", 2)], .nullParent⟩),
       (1, ⟨[("x", .vPrim 0)], [], .linkObj (some 0) (some "kid")⟩),
       (2, ⟨[("y", .vPrim 0)], [], .linkObj (some 0) (some "sib")⟩)]
    rawObjs := []
    reproxy := [(0, 0), (1, 1), (2, 2)]
    nextVersion := 3
    ncLs := []
    tcLs := [(0, [7])]
    nrLs := []
    skipEmit := false
    skipReproxy := false
    runningTransaction := false
    pending := []
    listening := true
    throwing := []
    log := [] }

theorem claim2_snapshot_equality_law_witness :
    alGet (assignRun 4 1 "x" (.vPrim 5) familyState).state.reproxy 1
        ≠ alGet familyState.reproxy 1 ∧
    alGet (assignRun 4 1 "x" (.vPrim 5) familyState).state.reproxy 2
        = alGet familyState.reproxy 2 :=
  ⟨(claim2_snapshot_equality_law 4 1 "x" 5 familyState
      ⟨[("x", .vPrim 0)], [], .linkObj (some 0) (some "kid")⟩ [0]
      rfl (by decide) rfl rfl (by decide) rfl).1,
   (claim2_snapshot_equality_law 4 1 "x" 5 familyState
      ⟨[("x", .vPrim 0)], [], .linkObj (some 0) (some "kid")⟩ [0]
      rfl (by decide) rfl rfl (by decide) rfl).2 2 (by decide) (by decide)⟩

/-- C9: the unsubscribe function must be idempotent.  After callback `1`
is unsubscribed once, callback `2` is still registered; calling the same
unsubscribe a second time runs `splice(findIndex(cb), 1)` with
`findIndex = -1`, which removes the *last* remaining listener — callback
`2` — and then tears down listening entirely. -/
theorem claim9_second_unsubscribe_removes_other_listener :
    (unsubscribeRun .nodeChanged 0 1 c9State).ncLs = [(0, [2])] ∧
    (unsubscribeRun .nodeChanged 0 1
        (unsubscribeRun .nodeChanged 0 1 c9State)).ncLs = [] ∧
    (unsubscribeRun .nodeChanged 0 1
        (unsubscribeRun .nodeChanged 0 1 c9State)).listening = false :=
  ⟨rfl, rfl, rfl⟩

/-- C10 claims the null-write TypeError for *every* property `p`; the
property `"constructor"` is a counterexample: the `set` trap returns
early after `Reflect.set` for `"constructor"`, so `w.constructor = null`
commits the raw write, returns `true` and invokes no listener. -/
theorem claim10_counterexample_constructor_null_commits :
    assignRun 4 0 "constructor" .vNull counterState
        = .ok true (counterState.setRawField 0 "constructor" .vNull) ∧
    rawField (assignRun 4 0 "constructor" .vNull counterState).state 0
        "constructor" = .vNull ∧
    (assignRun 4 0 "constructor" .vNull counterState).state.log = [] :=
  ⟨rfl, rfl, rfl⟩


theorem parentRef_alSet_keep (hs : List (Ref × NodeHandler)) (k : Ref)
    (h0 h1 : NodeHandler) (hget : alGet hs k = some h0)
    (hp : h1.parent = h0.parent) (m : Ref) :
    parentRef (alSet hs k h1) m = parentRef hs m := by
  unfold parentRef
  by_cases hm : m = k
  · subst hm
    rw [alGet_alSet_self, hget]
    simp only [Option.map_some']
    rw [hp]
  · rw [alGet_alSet_ne hs k m h1 hm]

theorem parentRef_alSet_ne2 (hs : List (Ref × NodeHandler)) (k : Ref)
    (h1 : NodeHandler) (m : Ref) (hm : m ≠ k) :
    parentRef (alSet hs k h1) m = parentRef hs m := by
  unfold parentRef
  rw [alGet_alSet_ne hs k m h1 hm]

/-- A four-node tree for the move scenario of C5: root `0` with children
`1` (at `"a"`) and `2` (at `"b"`), and `3` a child of `1` at `"child"`.
No listeners are attached (`listening = false`). -/
def sMove : St :=
  { handlers :=
      [(0, ⟨[("a", .vRef 1 true), ("b", .vRef 2 true)],
            [("a", 1), ("b", 2)], .nullParent⟩),
       (1, ⟨[("child", .vRef 3 true)], [("child", 3)],
            .linkObj (some 0) (some "a")⟩),
       (2, ⟨[], [], .linkObj (some 0) (some "b")⟩),
       (3, ⟨[("x", .vPrim 7)], [], .linkObj (some 1) (some "child")⟩)]
    rawObjs := []
    reproxy := [(0, 0), (1, 1), (2, 2), (3, 3)]
    nextVersion := 4
    ncLs := []
    tcLs := []
    nrLs := []
    skipEmit := false
    skipReproxy := false
    runningTransaction := false
    pending := []
    listening := false
    throwing := []
    log := [] }

/-- The transaction body of the C5 move scenario: `delete parentA.child`
followed by `parentB.child = c` (node `1` is `parentA`, node `2` is
`parentB`, node `3` is `c`). -/
def moveBody : St → Res Unit := fun s =>
  match deletePropRun 9 1 "child" s with
  | .err e s1 => .err e s1
  | .ok _ s1 =>
      match assignRun 9 2 "child" (.vRef 3 true) s1 with
      | .err e s2 => .err e s2
      | .ok _ s2 => .ok () s2

/-- C5: the single-parent rule.  (a) Assigning an already-wrapped node
`c` whose parent link points to a node `p ≠ n` into a property of `n`
throws `InvalidMoveError` synchronously and the assignment does not
commit (the state is returned unchanged).  (b) Assigning `c` again under
its current parent `n` (at any property) does not throw and updates
`c`'s parent link in place.  (c) Deleting `c` from its old parent and
then assigning it under a new parent inside one `runTransaction`
succeeds, and afterwards `c`'s parent is the new parent. -/
theorem claim5_single_parent_rule
    (fuel : Nat) (n c : Ref) (prop : String) (s : St)
    (hnd chnd : NodeHandler) (ch : List Ref)
    (hprop : prop ≠ "constructor")
    (hhe : alGet s.handlers n = some hnd)
    (hcget : alGet s.handlers c = some chnd)
    (hpg : proxyGet s n prop = .vUndefined ∨ ∃ k, proxyGet s n prop = .vPrim k)
    (hcn : c ≠ n)
    (hsk : s.skipReproxy = false)
    (hth : s.throwing = [])
    (hch : walkChain s.handlers fuel n = some ch)
    (hcch : c ∉ ch) :
    (∀ p pn, chnd.parent = .linkObj (some p) pn → p ≠ n →
        assignRun fuel n prop (.vRef c true) s = .err .invalidMove s) ∧
    (∀ pn0, chnd.parent = .linkObj (some n) pn0 →
        ∃ s', assignRun fuel n prop (.vRef c true) s = .ok true s' ∧
          (alGet s'.handlers c).map NodeHandler.parent
            = some (.linkObj (some n) (some prop))) ∧
    (∃ s', runTransactionRun moveBody sMove = .ok () s' ∧
        (alGet s'.handlers 3).map NodeHandler.parent
          = some (.linkObj (some 2) (some "child"))) := by
  have hid := handleNodeRemovedRun_id n prop s hpg
  have hpgraw : proxyGet s n prop = rawField s n prop := by
    unfold proxyGet rawField
    simp only [hhe]
    cases hc2 : alGet hnd.children prop with
    | none => rfl
    | some c2 =>
        exfalso
        have hv : proxyGet s n prop = .vRef c2 true := by
          unfold proxyGet
          simp only [hhe, hc2]
        rcases hpg with h | ⟨k, h⟩ <;> rw [h] at hv <;> exact JSValue.noConfusion hv
  have hprevRef : ¬(rawField s n prop = .vRef c true) := by
    rcases hpg with h | ⟨k, h⟩ <;> rw [← hpgraw, h] <;> simp
  refine ⟨?_, ?_, ⟨_, rfl, rfl⟩⟩
  · intro p pn ha hpnn
    have hrep : reparentProxyRun c n prop s = .err .invalidMove s := by
      unfold reparentProxyRun
      simp only [hcget, ha]
      rw [if_pos]
      exact ⟨fun hcon => Option.noConfusion hcon,
        fun hcon => hpnn (Option.some_inj.mp hcon)⟩
    simp only [assignRun, if_neg hprevRef, hid, if_neg hprop, hrep, if_true]
  · intro pn0 hsame
    have hrep : reparentProxyRun c n prop s
        = .ok () (s.setParent c (.linkObj (some n) (some prop))) := by
      unfold reparentProxyRun
      simp only [hcget, hsame]
      rw [if_neg (fun hcon => hcon.2 rfl)]
    set sP : St :=
      { s with handlers :=
          alSet s.handlers c { chnd with parent := .linkObj (some n) (some prop) } }
      with hsP
    have hPeq : s.setParent c (.linkObj (some n) (some prop)) = sP := by
      unfold St.setParent
      rw [hcget]
    have hgetPn : alGet sP.handlers n = some hnd := by
      rw [hsP]
      rw [alGet_alSet_ne s.handlers c n _ (Ne.symm hcn)]
      exact hhe
    set sC : St :=
      { sP with
        handlers :=
          alSet sP.handlers n { hnd with children := alSet hnd.children prop c } }
      with hsC
    have hCeq : sP.setChild n prop c = sC := by
      unfold St.setChild
      rw [hgetPn]
    have hgetCn : alGet sC.handlers n
        = some { hnd with children := alSet hnd.children prop c } := by
      rw [hsC]
      exact alGet_alSet_self _ _ _
    set s3 : St :=
      { sC with
        handlers :=
          alSet sC.handlers n
            { hnd with
                children := alSet hnd.children prop c
                raw := alSet hnd.raw prop (.vRef c true) } }
      with hs3
    have hReq : sC.setRawField n prop (.vRef c true) = s3 := by
      unfold St.setRawField
      rw [hgetCn]
    have hpr : ∀ m, m ≠ c → parentRef s3.handlers m = parentRef s.handlers m := by
      intro m hm
      simp only [hs3, hsC, hsP]
      by_cases hmn : m = n
      · subst hmn
        unfold parentRef
        rw [alGet_alSet_self, hhe]
        rfl
      · unfold parentRef
        rw [alGet_alSet_ne _ _ _ _ hmn, alGet_alSet_ne _ _ _ _ hmn,
          alGet_alSet_ne _ _ _ _ hm]
    have hch3 : walkChain s3.handlers fuel n = some ch :=
      walkChain_congr_visited s.handlers s3.handlers fuel n ch hch
        (hpr n (Ne.symm hcn)) (fun x hx => hpr x (fun hxc => hcch (hxc ▸ hx)))
    have hh3 : (alGet s3.handlers n).isSome := by
      rw [hs3]
      simp [alGet_alSet_self]
    have hsk3 : s3.skipReproxy = false := by
      rw [hs3, hsC, hsP]
      exact hsk
    have hth3 : s3.throwing = [] := by
      rw [hs3, hsC, hsP]
      exact hth
    obtain ⟨s', hfin⟩ :=
      (finishAssignRun_commit fuel n (proxyGet s n prop) s3 ch hch3 hsk3 hh3).2 hth3
    refine ⟨s', ?_, ?_⟩
    · simp only [assignRun, if_neg hprevRef, hid, if_neg hprop, hrep, if_true]
      rw [hPeq, hCeq, hReq]
      exact hfin
    · have hhandlers : s'.handlers = s3.handlers := by
        have h0 := finishAssignRun_frame fuel n (proxyGet s n prop) s3 ch hch3
        rw [hfin] at h0
        exact h0.handlers
      rw [hhandlers]
      simp only [hs3, hsC, hsP]
      rw [alGet_alSet_ne _ _ _ _ hcn, alGet_alSet_ne _ _ _ _ hcn,
        alGet_alSet_self]
      rfl

theorem claim5_single_parent_rule_witness :
    assignRun 4 2 "child" (.vRef 3 true) sMove = .err .invalidMove sMove ∧
    (∃ s', assignRun 4 1 "kid2" (.vRef 3 true) sMove = .ok true s' ∧
        (alGet s'.handlers 3).map NodeHandler.parent
          = some (.linkObj (some 1) (some "kid2"))) ∧
    (∃ s', runTransactionRun moveBody sMove = .ok () s' ∧
        (alGet s'.handlers 3).map NodeHandler.parent
          = some (.linkObj (some 2) (some "child"))) :=
  ⟨(claim5_single_parent_rule 4 2 3 "child" sMove
      ⟨[], [], .linkObj (some 0) (some "b")⟩
      ⟨[("x", .vPrim 7)], [], .linkObj (some 1) (some "child")⟩ [0]
      (by decide) rfl rfl (Or.inl rfl) (by decide) rfl rfl rfl
      (by decide)).1 1 (some "child") rfl (by decide),
   (claim5_single_parent_rule 4 1 3 "kid2" sMove
      ⟨[("child", .vRef 3 true)], [("child", 3)], .linkObj (some 0) (some "a")⟩
      ⟨[("x", .vPrim 7)], [], .linkObj (some 1) (some "child")⟩ [0]
      (by decide) rfl rfl (Or.inl rfl) (by decide) rfl rfl rfl
      (by decide)).2.1 (some "child") rfl,
   (claim5_single_parent_rule 4 2 3 "child" sMove
      ⟨[], [], .linkObj (some 0) (some "b")⟩
      ⟨[("x", .vPrim 7)], [], .linkObj (some 1) (some "child")⟩ [0]
      (by decide) rfl rfl (Or.inl rfl) (by decide) rfl rfl rfl
      (by decide)).2.2⟩

/-- C10 (amended): for every property other than `"constructor"`,
assigning `null` raises a `TypeError` (the `set` trap routes `null` into
`buildProxy`, and constructing a `Proxy` over a non-object throws) and
the write does not commit as a removal: every raw field, the snapshot
map, the registries, the flags, the pending records and the log are
unchanged — at most the parent link of the node read out of the vacated
slot has been severed, because the `handleNodeRemoved` pre-step runs
before the throw (`RemovalFrame`).  Assigning `undefined` or deleting
the property instead succeeds.  The hypotheses: the node is wrapped with
an acyclic ancestor chain not through the vacated slot's value, the slot
does not read `null` (reading `null` makes even the pre-step itself
throw on the `(null)["[[Handler]]"]` access), and no callback throws. -/
theorem claim10_amended_null_write_raises_typeerror
    (fuel : Nat) (n : Ref) (prop : String) (s : St)
    (hnd : NodeHandler) (ch : List Ref)
    (hprop : prop ≠ "constructor")
    (hhe : alGet s.handlers n = some hnd)
    (hpgn : proxyGet s n prop ≠ .vNull)
    (hdis : ∀ (m : Ref) (b : Bool), proxyGet s n prop = .vRef m b →
        m ≠ n ∧ m ∉ ch)
    (hsk : s.skipReproxy = false)
    (hth : s.throwing = [])
    (hch : walkChain s.handlers fuel n = some ch) :
    (rawField s n prop ≠ .vNull →
      ∃ s', assignRun fuel n prop .vNull s = .err .typeError s' ∧
        RemovalFrame s s' n prop) ∧
    (∃ s', assignRun fuel n prop .vUndefined s = .ok true s') ∧
    (∃ s', deletePropRun fuel n prop s = .ok true s') := by
  obtain ⟨v, s1, hH, hfr⟩ := handleNodeRemovedRun_spec n prop s hpgn
  have hraw1 : (alGet s1.handlers n).map NodeHandler.raw = some hnd.raw := by
    rw [hfr.rawOf n, hhe]
    rfl
  obtain ⟨hnd1, hget1, hraweq⟩ :
      ∃ h1, alGet s1.handlers n = some h1 ∧ h1.raw = hnd.raw := by
    cases hg : alGet s1.handlers n with
    | none =>
        rw [hg] at hraw1
        exact absurd hraw1 (by simp)
    | some h1 =>
        rw [hg] at hraw1
        simp only [Option.map_some', Option.some_inj] at hraw1
        exact ⟨h1, rfl, hraw1⟩
  have hget_pres : ∀ m, m = n ∨ m ∈ ch →
      alGet s1.handlers m = alGet s.handlers m := by
    intro m hm
    refine hfr.parentOf m ?_
    intro b hcon
    rcases hdis m b hcon with ⟨hmn, hmch⟩
    rcases hm with h | h
    · exact hmn h
    · exact hmch h
  have hch1 : walkChain s1.handlers fuel n = some ch :=
    walkChain_congr_visited s.handlers s1.handlers fuel n ch hch
      (by unfold parentRef; rw [hget_pres n (Or.inl rfl)])
      (fun x hx => by unfold parentRef; rw [hget_pres x (Or.inr hx)])
  have hsk1 : s1.skipReproxy = false := hfr.skipReproxy.trans hsk
  have hth1 : s1.throwing = [] := hfr.throwing.trans hth
  refine ⟨?_, ?_, ?_⟩
  · intro hprev
    refine ⟨s1, ?_, hfr⟩
    simp only [assignRun, if_neg hprev, hH, if_neg hprop, buildProxyRun]
  · by_cases hpv : rawField s n prop = .vUndefined
    · exact ⟨s, by simp only [assignRun, if_pos hpv]⟩
    · set s1' : St :=
        { s1 with
          handlers :=
            alSet s1.handlers n { hnd1 with raw := alSet hnd1.raw prop .vUndefined } }
        with hs1'
      have hseq : s1.setRawField n prop .vUndefined = s1' := by
        unfold St.setRawField
        rw [hget1]
      have hch1' : walkChain s1'.handlers fuel n = some ch := by
        rw [hs1']
        exact (walkChain_ext s1.handlers _
          (fun m => parentRef_setRaw s1.handlers n hnd1 _ hget1 m) fuel n).trans hch1
      have hh1' : (alGet s1'.handlers n).isSome := by
        rw [hs1']
        simp [alGet_alSet_self]
      have hsk1' : s1'.skipReproxy = false := by
        rw [hs1']
        exact hsk1
      have hth1' : s1'.throwing = [] := by
        rw [hs1']
        exact hth1
      obtain ⟨s2, hfin⟩ :=
        (finishAssignRun_commit fuel n v s1' ch hch1' hsk1' hh1').2 hth1'
      refine ⟨s2, ?_⟩
      simp only [assignRun, if_neg hpv, hH]
      rw [hseq]
      exact hfin
  · cases hb : (getReproxySnapshot s n).isSome with
    | false =>
        refine ⟨s.deleteRawField n prop, ?_⟩
        simp only [deletePropRun, hb, Bool.false_eq_true, if_false]
        by_cases hskd : (s.deleteRawField n prop).skipReproxy
        · rw [if_pos hskd]
        · rw [if_neg hskd]
          simp only [JSValue.truthy, Bool.false_and, Bool.false_eq_true,
            if_false]
    | true =>
        set s2' : St :=
          { s1 with
            handlers :=
              alSet s1.handlers n { hnd1 with raw := alRemove hnd1.raw prop } }
          with hs2'
        have hdeq : s1.deleteRawField n prop = s2' := by
          unfold St.deleteRawField
          rw [hget1]
        have hch2' : walkChain s2'.handlers fuel n = some ch := by
          rw [hs2']
          exact (walkChain_ext s1.handlers _
            (fun m => parentRef_setRaw s1.handlers n hnd1 _ hget1 m) fuel n).trans hch1
        have hh2' : (alGet s2'.handlers n).isSome := by
          rw [hs2']
          simp [alGet_alSet_self]
        have hskd : s2'.skipReproxy = false := by
          rw [hs2']
          exact hsk1
        set s3' : St :=
          { s2' with
            reproxy := alSet s2'.reproxy n s2'.nextVersion
            nextVersion := s2'.nextVersion + 1 } with hs3'
        have hup : updateReproxyRun n s2' = .ok s2'.nextVersion s3' :=
          updateReproxyRun_ok n s2' hh2'
        have hch3' : walkChain s3'.handlers fuel n = some ch := by
          rw [hs3']
          exact hch2'
        have hth3' : s3'.throwing = [] := by
          rw [hs3', hs2']
          exact hth1
        obtain ⟨s4, hem⟩ :=
          emitterNodeChangedRun_ok fuel n s2'.nextVersion s3' ch hch3' hth3'
        have hfr4 : FrameOk s3' s4 ch := by
          have h0 := emitterNodeChangedRun_frame fuel n s2'.nextVersion s3' ch hch3'
          rw [hem] at h0
          exact h0
        have hth4 : s4.throwing = [] := by
          rw [hfr4.throwing, hs3', hs2']
          exact hth1
        cases htv : v.truthy with
        | false =>
            refine ⟨s4, ?_⟩
            simp only [deletePropRun, hb, if_true, hH, hdeq, hskd,
              Bool.false_eq_true, if_false, hup, hem, htv, Bool.false_and]
        | true =>
            cases hse4 : s4.skipEmit with
            | true =>
                refine ⟨s4, ?_⟩
                simp only [deletePropRun, hb, if_true, hH, hdeq, hskd,
                  Bool.false_eq_true, if_false, hup, hem, htv, hse4,
                  Bool.not_true, Bool.and_false, if_false]
            | false =>
                obtain ⟨s5, hrem⟩ := emitterNodeRemovedRun_ok n s4 hth4
                refine ⟨s5, ?_⟩
                simp only [deletePropRun, hb, if_true, hH, hdeq, hskd,
                  Bool.false_eq_true, if_false, hup, hem, htv, hse4,
                  Bool.not_false, Bool.true_and, hrem]

theorem claim10_amended_null_write_raises_typeerror_witness :
    (∃ s', assignRun 4 1 "child" .vNull sMove = .err .typeError s' ∧
        RemovalFrame sMove s' 1 "child") ∧
    (∃ s', assignRun 4 1 "child" .vUndefined sMove = .ok true s') ∧
    (∃ s', deletePropRun 4 1 "child" sMove = .ok true s') :=
  have h := claim10_amended_null_write_raises_typeerror 4 1 "child" sMove
    ⟨[("child", .vRef 3 true)], [("child", 3)], .linkObj (some 0) (some "a")⟩
    [0] (by decide) rfl (by decide)
    (by
      intro m b hcon
      have h2 : JSValue.vRef 3 true = JSValue.vRef m b := hcon
      injection h2 with hm hb
      subst hm
      exact ⟨by decide, by decide⟩)
    rfl rfl rfl
  ⟨h.1 (by decide), h.2.1, h.2.2⟩

end Retree
